import Mathlib

set_option maxRecDepth 10000

/-!
# Verification of the Backup_Terminal command-line parser core

Shallow embedding of the argument parser and validator implemented in
`src/js/commands/helloworld.js` (class `TerminalParser`, class `Command`):
the tokenizer, the argument-option schema compiler (`parseArgOptions`),
the named/positional argument resolver (`parseNamedArgs`, `parseArguments`),
the recursive numeric expression evaluator (`_parseNumber`), the typed
value setter (`_parseArgumentValue`) and the dispatch protocol
(`Command.run` / `Command.processArgs`).

Modelling conventions:

* JavaScript strings are embedded as `List Char` (and wrapped back into
  `String` at the API boundary); arrays as `List`.
* JavaScript numbers are embedded as exact rationals `ℚ`.  All arithmetic
  exercised by the verified properties stays within small integers, where
  IEEE-754 doubles compute exactly, so the rational model agrees with the
  JavaScript semantics on every evaluation appearing in a theorem below.
  The transcendental primitives (`Math.sqrt`, `Math.sin`, …), the constants
  `Math.PI` … and `**` have no exact rational counterpart; they are
  therefore kept abstract in a `MathOps` parameter, and nothing proved here
  depends on their values.
* A thrown JavaScript exception is the `Except.error` channel of type
  `JsErr`; the in-band `ParserError` sentinel of `_parseNumber` is the
  `Except.error (msg : String)` channel of the numeric evaluator, matching
  the source's convention that the sentinel always travels together with a
  message written into the shared `ParsingError`.
-/

/-- The JavaScript exceptions the parser core can raise: `DeveloperError`
(thrown by `parseArgOptions` for a malformed schema string) and a native
`TypeError` (e.g. calling `.startsWith` on a boolean). -/
inductive JsErr where
  | developerError (msg : String)
  | typeError
deriving DecidableEq, Repr

deriving instance DecidableEq for Except

/-- A cell of a parsed matrix argument: either a number (`parseFloat`-ed)
or the original single-letter string, as produced by the matrix branch of
`_parseArgumentValue`. -/
inductive MatCell where
  | num (q : ℚ)
  | sym (s : String)
deriving DecidableEq, Repr

/-- The JavaScript values the resolver assigns to options: numbers,
booleans, strings, bigints and parsed matrices. -/
inductive JSVal where
  | num (q : ℚ)
  | bool (b : Bool)
  | str (s : String)
  | bigint (n : ℤ)
  | matrix (rows : List (List MatCell))
deriving DecidableEq, Repr

/-- JavaScript `String(value)` coercion, for the values above.  Exact for
the string/boolean/integer cases that the parser actually stringifies;
non-integer numbers are rendered as `num/den`, a divergence from the
shortest-round-trip printing of doubles that no verified path exercises. -/
def jsToString : JSVal → String
  | .str s => s
  | .bool b => cond b "true" "false"
  | .num q => if q.den = 1 then toString q.num else toString q.num ++ "/" ++ toString q.den
  | .bigint n => toString n
  | .matrix rows =>
    String.intercalate "," ((rows.map (fun row => row.map (fun c =>
      match c with
      | .num q => if q.den = 1 then toString q.num else toString q.num ++ "/" ++ toString q.den
      | .sym s => s))).flatten)

/-- JavaScript truthiness of an option's `value` field (`undefined`, `""`,
`0`, `0n` and `false` are falsy), used by `addVal`'s expanding-append test. -/
def jsTruthy : Option JSVal → Bool
  | none => false
  | some (.num q) => decide (q ≠ 0)
  | some (.bool b) => b
  | some (.str s) => decide (s ≠ "")
  | some (.bigint n) => decide (n ≠ 0)
  | some (.matrix _) => true

/-- Abstract interpretation of the real-valued primitives used by
`_parseNumber` (`Math.*` functions, the named constants and `**`).
Keeping them abstract records precisely that no verified property depends
on floating-point values. -/
structure MathOps where
  piVal : ℚ
  tauVal : ℚ
  phiVal : ℚ
  eVal : ℚ
  sqrt : ℚ → ℚ
  sin : ℚ → ℚ
  cos : ℚ → ℚ
  tan : ℚ → ℚ
  arcsin : ℚ → ℚ
  arccos : ℚ → ℚ
  arctan : ℚ → ℚ
  sinh : ℚ → ℚ
  cosh : ℚ → ℚ
  tanh : ℚ → ℚ
  arcsinh : ℚ → ℚ
  arccosh : ℚ → ℚ
  arctanh : ℚ → ℚ
  pow : ℚ → ℚ → ℚ

/-- An arbitrary concrete `MathOps` interpretation, used only to state
closed evaluations whose execution paths never consult these fields. -/
def mathOps0 : MathOps where
  piVal := 0
  tauVal := 0
  phiVal := 0
  eVal := 0
  sqrt := fun _ => 0
  sin := fun _ => 0
  cos := fun _ => 0
  tan := fun _ => 0
  arcsin := fun _ => 0
  arccos := fun _ => 0
  arctan := fun _ => 0
  sinh := fun _ => 0
  cosh := fun _ => 0
  tanh := fun _ => 0
  arcsinh := fun _ => 0
  arccosh := fun _ => 0
  arctanh := fun _ => 0
  pow := fun _ _ => 0

/-- The two externally supplied existence predicates consumed by
`_parseArgumentValue` (`terminal.fileExists`, `terminal.commandExists`). -/
structure TerminalEnv where
  fileExists : JSVal → Bool
  commandExists : JSVal → Bool

/-- An arbitrary concrete environment for closed evaluations that never
reach a `file`- or `command`-typed argument. -/
def ext0 : TerminalEnv where
  fileExists := fun _ => false
  commandExists := fun _ => false

/-- The shared mutable `parsingError` record: an absent `message` means
success; `tokenIndex`/`tokenSpan` locate the offending tokens. -/
structure ParsingError where
  message : Option String
  tokenIndex : Option Nat
  tokenSpan : Nat
deriving DecidableEq, Repr

/-- The fresh `parsingError` created at the top of `parseArguments`. -/
def ParsingError.init : ParsingError := ⟨none, none, 0⟩

/-! ## Small string utilities mirroring the JavaScript ones used -/

/-- JavaScript `str.split(sep)` for a single-character separator. -/
def splitOnChar (sep : Char) : List Char → List (List Char)
  | [] => [[]]
  | c :: rest =>
    if c = sep then
      [] :: splitOnChar sep rest
    else
      match splitOnChar sep rest with
      | [] => [[c]]
      | part :: parts => (c :: part) :: parts

/-- Digit run value in a given base. -/
def digitsVal (base : Nat) (digitVal : Char → Nat) (l : List Char) : Nat :=
  l.foldl (fun acc c => acc * base + digitVal c) 0

/-- Value of a lowercase hexadecimal digit. -/
def hexDigitVal (c : Char) : Nat :=
  if c.isDigit then c.toNat - '0'.toNat
  else c.toNat - 'a'.toNat + 10

/-- JavaScript `parseFloat`, restricted to the shapes the schema compiler
and matrix parser feed it: optional whitespace, optional sign, decimal
digits with optional fraction and optional exponent; `none` models `NaN`. -/
def parseJsFloat (l : List Char) : Option ℚ :=
  let l := l.dropWhile (fun c => c = ' ' ∨ c = '\t' ∨ c = '\n' ∨ c = '\r')
  let (sign, l) := match l with
    | '-' :: rest => ((-1 : ℚ), rest)
    | '+' :: rest => ((1 : ℚ), rest)
    | rest => ((1 : ℚ), rest)
  let intPart := l.takeWhile Char.isDigit
  let l := l.dropWhile Char.isDigit
  let (fracPart, l) := match l with
    | '.' :: rest => (rest.takeWhile Char.isDigit, rest.dropWhile Char.isDigit)
    | rest => ([], rest)
  if intPart = [] ∧ fracPart = [] then none
  else
    let mantissa : ℚ := (digitsVal 10 (fun c => c.toNat - '0'.toNat) intPart : ℚ) +
      (digitsVal 10 (fun c => c.toNat - '0'.toNat) fracPart : ℚ) / ((10 : ℚ) ^ fracPart.length)
    let expVal : ℤ := match l with
      | 'e' :: rest | 'E' :: rest =>
        let (esign, rest) := match rest with
          | '-' :: r => ((-1 : ℤ), r)
          | '+' :: r => ((1 : ℤ), r)
          | r => ((1 : ℤ), r)
        let edigits := rest.takeWhile Char.isDigit
        if edigits = [] then 0 else esign * (digitsVal 10 (fun c => c.toNat - '0'.toNat) edigits : ℤ)
      | _ => 0
    some (sign * mantissa * (10 : ℚ) ^ expVal)

/-- JavaScript `BigInt(value)` conversion: booleans become `0n`/`1n`,
integral numbers pass through, strings accept optional sign plus decimal
digits or an unsigned `0x`/`0b`/`0o` literal (empty/whitespace is `0n`);
`none` models the thrown `SyntaxError` that the `catch` turns into a parse
error. -/
def jsBigInt : JSVal → Option ℤ
  | .bool b => some (cond b 1 0)
  | .num q => if q.den = 1 then some q.num else none
  | .bigint n => some n
  | .matrix _ => none
  | .str s =>
    let l := s.data.dropWhile (fun c => c = ' ' ∨ c = '\t' ∨ c = '\n' ∨ c = '\r')
    let l := l.reverse.dropWhile (fun c => c = ' ' ∨ c = '\t' ∨ c = '\n' ∨ c = '\r') |>.reverse
    match l with
    | [] => some 0
    | '0' :: 'x' :: rest =>
      if rest ≠ [] ∧ rest.all (fun c => c.isDigit ∨ ('a' ≤ c ∧ c ≤ 'f') ∨ ('A' ≤ c ∧ c ≤ 'F'))
      then some (digitsVal 16 (fun c => if c.isDigit then c.toNat - '0'.toNat
        else if 'a' ≤ c then c.toNat - 'a'.toNat + 10 else c.toNat - 'A'.toNat + 10) rest : ℤ)
      else none
    | '0' :: 'b' :: rest =>
      if rest ≠ [] ∧ rest.all (fun c => c = '0' ∨ c = '1')
      then some (digitsVal 2 (fun c => c.toNat - '0'.toNat) rest : ℤ)
      else none
    | '0' :: 'o' :: rest =>
      if rest ≠ [] ∧ rest.all (fun c => '0' ≤ c ∧ c ≤ '7')
      then some (digitsVal 8 (fun c => c.toNat - '0'.toNat) rest : ℤ)
      else none
    | '-' :: rest =>
      if rest ≠ [] ∧ rest.all Char.isDigit
      then some (-(digitsVal 10 (fun c => c.toNat - '0'.toNat) rest : ℤ))
      else none
    | '+' :: rest =>
      if rest ≠ [] ∧ rest.all Char.isDigit
      then some (digitsVal 10 (fun c => c.toNat - '0'.toNat) rest : ℤ)
      else none
    | rest =>
      if rest.all Char.isDigit
      then some (digitsVal 10 (fun c => c.toNat - '0'.toNat) rest : ℤ)
      else none

/-! ## Tokenizer (`TerminalParser.tokenize`) -/

/-- The scanning loop of `TerminalParser.tokenize`: one-character state
`activeApostrophe`, accumulator `tempToken`.  A closing quote flushes the
accumulated span (even when empty); outside quotes whitespace flushes a
non-empty accumulator; the trailing accumulator is flushed at end of input
regardless of quote state (unclosed quotes degrade silently). -/
def tokenizeGo : List Char → List Char → Option Char → List (List Char)
  | [], tempToken, _ => if tempToken ≠ [] then [tempToken] else []
  | c :: rest, tempToken, some q =>
    if c = q then tempToken :: tokenizeGo rest [] none
    else tokenizeGo rest (tempToken ++ [c]) (some q)
  | c :: rest, tempToken, none =>
    if c = '\'' ∨ c = '"' then tokenizeGo rest tempToken (some c)
    else if c = ' ' ∨ c = '\t' ∨ c = '\n' then
      if tempToken ≠ [] then tempToken :: tokenizeGo rest [] none
      else tokenizeGo rest [] none
    else tokenizeGo rest (tempToken ++ [c]) none

/-- `TerminalParser.tokenize(input)`. -/
def tokenize (input : String) : List String :=
  (tokenizeGo input.data [] none).map String.mk

/-! ## Argument schema compiler (`TerminalParser.parseArgOptions`) -/

/-- The compiled descriptor of one declared argument
(`TerminalParser.parseArgOptions` result object).  The `type`/`typeName`
fields keep the source's string encoding; `value`, `isManuallySetValue`,
`tokenIndex`, `tokenSpan` and `hasExpanded` are the per-parse mutable
fields. -/
structure ArgOption where
  name : String
  type : String
  typeName : String
  stringType : Option String
  optional : Bool
  min : Option ℚ
  max : Option ℚ
  expanding : Bool
  numtype : Option String
  enumOptions : Option (List String)
  defaultVal : Option JSVal
  forms : List String
  isHelp : Bool
  description : String
  tokenIndex : Option Nat
  tokenSpan : Nat
  value : Option JSVal
  isManuallySetValue : Bool
  hasExpanded : Bool
deriving DecidableEq, Repr

/-- `argOptions.fullName` getter. -/
def ArgOption.fullName (a : ArgOption) : String :=
  if a.forms.length > 0 then String.intercalate "|" a.forms else a.name

/-- The `?` (optional) and `*` (expanding) prefix stripping at the top of
`parseArgOptions`. -/
def stripSchemaPrefixes (name0 : List Char) : Bool × Bool × List Char :=
  let (optional, name1) := if name0.head? = some '?' then (true, name0.drop 1) else (false, name0)
  let (expanding, name2) := if name1.head? = some '*' then (true, name1.drop 1) else (false, name1)
  (optional, expanding, name2)

/-- `TerminalParser.parseArgOptions(argString)`: compiles one schema spec
string (`?` optional prefix, `*` expanding prefix, `name[:type[:constraint]]`,
`long=short` aliasing).  An unknown type code throws `DeveloperError`. -/
def parseArgOptions (argString : String) : Except JsErr ArgOption := do
  let (optional, expanding, name2) := stripSchemaPrefixes argString.data
  let (name3, type', typeName, stringType, numtype, min', max', enumOptions) ←
    if name2.contains ':' then
      match splitOnChar ':' name2 with
      | p0 :: p1 :: restParts => do
        let t := String.mk p1
        let (type', typeName, stringType, numtype) ←
          if t = "n" then pure ("number", "number", (none : Option String), (none : Option String))
          else if t = "i" then pure ("number", "integer", none, some "integer")
          else if t = "bn" then pure ("bigint", "integer", none, none)
          else if t = "b" then pure ("boolean", "boolean", none, none)
          else if t = "s" then pure ("string", "string", none, none)
          else if t = "f" then pure ("file", "file", none, none)
          else if t = "c" then pure ("command", "command", none, none)
          else if t = "sm" then pure ("square-matrix", "square-matrix", none, none)
          else if t = "m" then pure ("matrix", "matrix", none, none)
          else if t = "e" then pure ("enum", "enum", none, none)
          else if t = "t" then pure ("string", "string", some "text", none)
          else throw (JsErr.developerError ("Invalid argument type: " ++ t))
        match restParts with
        | [] => pure (p0, type', typeName, stringType, numtype, (none : Option ℚ), (none : Option ℚ), (none : Option (List String)))
        | range :: _ =>
          if type' = "number" then
            if range.contains '~' then
              match splitOnChar '~' range with
              | r0 :: r1 :: _ => pure (p0, type', typeName, stringType, numtype, parseJsFloat r0, parseJsFloat r1, none)
              | _ => pure (p0, type', typeName, stringType, numtype, none, none, none)
            else
              pure (p0, type', typeName, stringType, numtype, parseJsFloat range, parseJsFloat range, none)
          else if type' = "enum" then
            pure (p0, type', typeName, stringType, numtype, none, none,
              some ((splitOnChar '|' range).map String.mk))
          else
            pure (p0, type', typeName, stringType, numtype, none, none, none)
      | _ => pure (name2, "string", "string", none, none, none, none, none)
    else
      pure (name2, "string", "string", none, none, none, none, none)
  let nameStr := String.mk name3
  let (forms, finalName) :=
    if name3.contains '=' then
      let fs := (splitOnChar '=' name3).map String.mk
      (fs, fs[1]!)
    else ([nameStr], nameStr)
  pure {
    name := finalName
    type := type'
    typeName := typeName
    stringType := stringType
    optional := optional
    min := min'
    max := max'
    expanding := expanding
    numtype := numtype
    defaultVal := none
    forms := forms
    isHelp := finalName = "help" ∨ finalName = "h"
    description := ""
    tokenIndex := none
    tokenSpan := 0
    value := none
    isManuallySetValue := false
    hasExpanded := false
    enumOptions := enumOptions
  }

/-! ## Numeric expression evaluator (`TerminalParser._parseNumber`) -/

/-- The uniform error message shape of `_parseNumber`: every failure
message interpolates the owning argument's name,
`At property "<name>": <body>`. -/
def numErrMsg (argName body : String) : String :=
  "At property \"" ++ argName ++ "\": " ++ body

/-- `^[0123456789]+$` (the source's `intRegex`). -/
def intRegexB (l : List Char) : Bool :=
  decide (l ≠ []) && l.all Char.isDigit

/-- Lowercase hexadecimal digit, as in the source's character classes. -/
def isHexDigitLower (c : Char) : Bool :=
  c.isDigit || (decide ('a' ≤ c) && decide (c ≤ 'f'))

/-- `^0x[0123456789abcdef]+$` (`hexIntRegex`). -/
def hexIntRegexB (l : List Char) : Bool :=
  match l with
  | '0' :: 'x' :: rest => decide (rest ≠ []) && rest.all isHexDigitLower
  | _ => false

/-- `^0b[01]+$` (`binIntRegex`). -/
def binIntRegexB (l : List Char) : Bool :=
  match l with
  | '0' :: 'b' :: rest => decide (rest ≠ []) && rest.all (fun c => c = '0' ∨ c = '1')
  | _ => false

/-- Split a character list at the first occurrence of `c`. -/
def splitFirst (c : Char) : List Char → Option (List Char × List Char)
  | [] => none
  | x :: xs =>
    if x = c then some ([], xs)
    else (splitFirst c xs).map (fun p => (x :: p.1, p.2))

/-- `^[0123456789]+\.[0123456789]+$` (`decimalRegex`). -/
def decimalRegexB (l : List Char) : Bool :=
  match splitFirst '.' l with
  | some (a, b) => decide (a ≠ []) && a.all Char.isDigit && decide (b ≠ []) && b.all Char.isDigit
  | none => false

/-- `^0x[0-9a-f]+\.[0-9a-f]+$` (`hexDecimalRegex`). -/
def hexDecimalRegexB (l : List Char) : Bool :=
  match l with
  | '0' :: 'x' :: rest =>
    (match splitFirst '.' rest with
     | some (a, b) => decide (a ≠ []) && a.all isHexDigitLower && decide (b ≠ []) && b.all isHexDigitLower
     | none => false)
  | _ => false

/-- `^0b[01]+\.[01]+$` (`binDecimalRegex`). -/
def binDecimalRegexB (l : List Char) : Bool :=
  match l with
  | '0' :: 'b' :: rest =>
    (match splitFirst '.' rest with
     | some (a, b) => decide (a ≠ []) && a.all (fun c => c = '0' ∨ c = '1') &&
         decide (b ≠ []) && b.all (fun c => c = '0' ∨ c = '1')
     | none => false)
  | _ => false

/-- `^\-?[0-9]+(\.[0-9]+)?e[0-9]+$` (`scientificRegex`). -/
def scientificRegexB (l : List Char) : Bool :=
  let l := match l with
    | '-' :: rest => rest
    | rest => rest
  match splitFirst 'e' l with
  | some (mant, expo) =>
    (match splitFirst '.' mant with
     | some (a, b) => decide (a ≠ []) && a.all Char.isDigit && decide (b ≠ []) && b.all Char.isDigit
     | none => decide (mant ≠ []) && mant.all Char.isDigit) &&
    decide (expo ≠ []) && expo.all Char.isDigit
  | none => false

/-- Decimal digit fold as a rational. -/
def natDigits (l : List Char) : ℚ :=
  (digitsVal 10 (fun c => c.toNat - '0'.toNat) l : ℚ)

/-- Value of a string already known to match one of the numeric literal
regexes, in the order the source tests them: plain/hex/binary integers,
then plain/binary/hex decimals, then scientific notation.  All branches
produce values, never errors, exactly as in the source. -/
def numericLiteralValue (l : List Char) : Option ℚ :=
  if intRegexB l then some (natDigits l)
  else if hexIntRegexB l then some ((digitsVal 16 hexDigitVal (l.drop 2) : ℚ))
  else if binIntRegexB l then some ((digitsVal 2 (fun c => c.toNat - '0'.toNat) (l.drop 2) : ℚ))
  else if decimalRegexB l then
    match splitFirst '.' l with
    | some (a, b) => some (natDigits a + natDigits b / (10 : ℚ) ^ b.length)
    | none => none
  else if binDecimalRegexB l then
    match splitFirst '.' (l.drop 2) with
    | some (a, b) =>
      some ((digitsVal 2 (fun c => c.toNat - '0'.toNat) a : ℚ) +
        (digitsVal 2 (fun c => c.toNat - '0'.toNat) b : ℚ) / (2 : ℚ) ^ b.length)
    | none => none
  else if hexDecimalRegexB l then
    match splitFirst '.' (l.drop 2) with
    | some (a, b) =>
      some ((digitsVal 16 hexDigitVal a : ℚ) + (digitsVal 16 hexDigitVal b : ℚ) / (16 : ℚ) ^ b.length)
    | none => none
  else if scientificRegexB l then
    match splitFirst 'e' l with
    | some (mant, expo) => (parseJsFloat mant).map (fun m => m * (10 : ℚ) ^ (digitsVal 10 (fun c => c.toNat - '0'.toNat) expo))
    | none => none
  else none

/-- One entry of the source's `allowedFunctions` table: how to compute the
function and its (optional) domain constraint. -/
structure FuncSpec where
  compute : MathOps → ℚ → ℚ
  constraintIf : ℚ → Bool
  constraintBody : String

/-- The `allowedFunctions` table in source (insertion) order, ending with
the parenthesis pseudo-function `""`. -/
def allowedFunctions : List (String × FuncSpec) := [
  ("sqrt", ⟨fun o => o.sqrt, fun n => decide (n < 0), "sqrt is only defined on [0, inf)"⟩),
  ("sin", ⟨fun o => o.sin, fun _ => false, ""⟩),
  ("cos", ⟨fun o => o.cos, fun _ => false, ""⟩),
  ("tan", ⟨fun o => o.tan, fun _ => false, ""⟩),
  ("arcsin", ⟨fun o => o.arcsin, fun n => decide (n < -1) || decide (n > 1), "arcsin is only defined on [-1, 1]"⟩),
  ("arccos", ⟨fun o => o.arccos, fun n => decide (n < -1) || decide (n > 1), "arccos is only defined on [-1, 1]"⟩),
  ("arctan", ⟨fun o => o.arctan, fun _ => false, ""⟩),
  ("sinh", ⟨fun o => o.sinh, fun _ => false, ""⟩),
  ("cosh", ⟨fun o => o.cosh, fun _ => false, ""⟩),
  ("tanh", ⟨fun o => o.tanh, fun _ => false, ""⟩),
  ("arcsinh", ⟨fun o => o.arcsinh, fun _ => false, ""⟩),
  ("arccosh", ⟨fun o => o.arccosh, fun n => decide (n < 1), "arccosh is only defined on [1, inf)"⟩),
  ("arctanh", ⟨fun o => o.arctanh, fun n => decide (n ≤ -1) || decide (n ≥ 1), "arctanh is only defined on (-1, 1)"⟩),
  ("", ⟨fun _ n => n, fun _ => false, ""⟩)]

/-- The source's "closing bracket doesn't belong to opening bracket" check
on the sliced argument of a candidate function call: scans `openCount` and
aborts (yields `true`) as soon as it dips below zero. -/
def bracketAbort : List Char → Int → Bool
  | [], _ => false
  | c :: rest, openCount =>
    let openCount := if c = '(' then openCount + 1 else if c = ')' then openCount - 1 else openCount
    if openCount < 0 then true else bracketAbort rest openCount

/-- The function-prefix scan of `_parseNumber`: the first entry of
`allowedFunctions` whose `name(`-prefix matches and whose sliced argument
passes the bracket check, together with that sliced argument
(`numberString.slice(name.length + 1, -1)`). -/
def firstMatchingFunctionAux (s : List Char) : List (String × FuncSpec) → Option (FuncSpec × List Char)
  | [] => none
  | (fname, spec) :: rest =>
    if List.isPrefixOf (fname.data ++ ['(']) s then
      let numberPart := (s.drop (fname.length + 1)).dropLast
      if bracketAbort numberPart 0 then firstMatchingFunctionAux s rest
      else some (spec, numberPart)
    else firstMatchingFunctionAux s rest

/-- Entry point of the function-prefix scan. -/
def firstMatchingFunction (s : List Char) : Option (FuncSpec × List Char) :=
  firstMatchingFunctionAux s allowedFunctions

theorem firstMatchingFunctionAux_length {s : List Char} {fl : List (String × FuncSpec)}
    {spec : FuncSpec} {part : List Char}
    (h : firstMatchingFunctionAux s fl = some (spec, part)) : part.length < s.length := by
  induction fl with
  | nil => simp [firstMatchingFunctionAux] at h
  | cons hd tl ih =>
    obtain ⟨fname, fspec⟩ := hd
    simp only [firstMatchingFunctionAux] at h
    by_cases hpre : List.isPrefixOf (fname.data ++ ['(']) s
    · simp only [hpre, if_true] at h
      by_cases habort : bracketAbort ((s.drop (fname.length + 1)).dropLast) 0
      · simp only [habort, if_true] at h
        exact ih h
      · simp only [habort, Bool.false_eq_true, if_false, Option.some.injEq] at h
        have hpart := congrArg Prod.snd h
        simp only at hpart
        have hs : s ≠ [] := by
          intro hnil
          rw [hnil] at hpre
          have := List.isPrefixOf_iff_prefix.mp hpre
          simp at this
        have hlen : 0 < s.length := List.length_pos.mpr hs
        rw [← hpart]
        simp only [List.length_dropLast, List.length_drop]
        omega
    · simp only [hpre, if_false] at h
      exact ih h

/-- The parenthesis-level update of one scanned character
(`if (char == "(") currLevel++; if (char == ")") currLevel--`). -/
def stepLevel (c : Char) (lev : Int) : Int :=
  let lev := if c = '(' then lev + 1 else lev
  if c = ')' then lev - 1 else lev

theorem firstMatchingFunction_length {s : List Char} {spec : FuncSpec} {part : List Char}
    (h : firstMatchingFunction s = some (spec, part)) : part.length < s.length :=
  firstMatchingFunctionAux_length h

/-- The per-operator scanning loop of `_parseNumber`: tracks parenthesis
depth (`currLevel`), errors on a negative dip or a nonzero final depth, and
remembers the index of the **last** depth-0 occurrence of the operator
(`foundSplitIndex` is overwritten on each match during the left-to-right
scan). -/
def opScanGo (argName : String) (opName : Char) :
    List Char → Nat → Int → Option Nat → Except String (Option Nat)
  | [], _, currLevel, found =>
    if currLevel ≠ 0 then .error (numErrMsg argName "Unbalanced parentheses")
    else .ok found
  | c :: rest, i, currLevel, found =>
    let currLevel := stepLevel c currLevel
    if currLevel < 0 then .error (numErrMsg argName "Unbalanced parentheses")
    else opScanGo argName opName rest (i + 1) currLevel
      (if c = opName ∧ currLevel = 0 then some i else found)

/-- One full operator pass over the string. -/
def opScan (argName : String) (opName : Char) (s : List Char) : Except String (Option Nat) :=
  opScanGo argName opName s 0 0 none

theorem opScanGo_some_lt {argName : String} {opName : Char} :
    ∀ (l : List Char) (i : Nat) (lev : Int) (found : Option Nat) {k : Nat},
      (∀ j, found = some j → j < i) →
      opScanGo argName opName l i lev found = .ok (some k) → k < i + l.length := by
  intro l
  induction l with
  | nil =>
    intro i lev found k hf h
    simp only [opScanGo] at h
    split at h
    · exact absurd h (by simp)
    · simp only [Except.ok.injEq] at h
      simpa using hf k h
  | cons c rest ih =>
    intro i lev found k hf h
    simp only [opScanGo] at h
    split at h
    · exact absurd h (by simp)
    · have hnext : ∀ j, (if c = opName ∧ stepLevel c lev = 0 then some i else found) = some j → j < i + 1 := by
        intro j hj
        split at hj
        · simp only [Option.some.injEq] at hj
          omega
        · exact Nat.lt_succ_of_lt (hf j hj)
      have := ih (i + 1) (stepLevel c lev) _ hnext h
      simp only [List.length_cons]
      omega

theorem opScan_some_lt {argName : String} {opName : Char} {s : List Char} {k : Nat}
    (h : opScan argName opName s = .ok (some k)) : k < s.length := by
  have := @opScanGo_some_lt argName opName s 0 0 none k (by simp) h
  simpa using this

/-- The `operators` table of `_parseNumber`, in source order ("list of
anti-precedence"): `+`, `-`, `*`, `/`, `^`. -/
def operators : List (Char × (MathOps → ℚ → ℚ → ℚ)) := [
  ('+', fun _ a b => a + b),
  ('-', fun _ a b => a - b),
  ('*', fun _ a b => a * b),
  ('/', fun _ a b => a / b),
  ('^', fun o a b => o.pow a b)]

/-- The outer `for (operatorName of operators)` loop: runs `opScan` per
operator in order, propagating its unbalanced-parenthesis error, moving to
the next operator when no top-level occurrence exists, and otherwise
yielding the operator together with its split index. -/
def opSplitLoop (argName : String) (s : List Char) :
    List (Char × (MathOps → ℚ → ℚ → ℚ)) → Except String (Option ((Char × (MathOps → ℚ → ℚ → ℚ)) × Nat))
  | [] => .ok none
  | (opName, opFunc) :: rest =>
    match opScan argName opName s with
    | .error e => .error e
    | .ok none => opSplitLoop argName s rest
    | .ok (some i) => .ok (some ((opName, opFunc), i))

theorem opSplitLoop_some_lt {argName : String} {s : List Char}
    {ops : List (Char × (MathOps → ℚ → ℚ → ℚ))} {op : Char × (MathOps → ℚ → ℚ → ℚ)} {i : Nat}
    (h : opSplitLoop argName s ops = .ok (some (op, i))) : i < s.length := by
  induction ops with
  | nil => simp [opSplitLoop] at h
  | cons hd tl ih =>
    obtain ⟨opName, opFunc⟩ := hd
    simp only [opSplitLoop] at h
    split at h
    · exact absurd h (by simp)
    · exact ih h
    · rename_i k hk
      simp only [Except.ok.injEq, Option.some.injEq, Prod.mk.injEq] at h
      obtain ⟨-, rfl⟩ := h
      exact opScan_some_lt hk

/-- `TerminalParser._parseNumber(numberString, argOption, error)` on a
character list, by structural recursion on a fuel bound (every JavaScript
recursive call strictly shrinks the string, so any fuel above the string
length is enough — `parseNumberGo_irrel` below proves the result does not
depend on the fuel, and the zero-fuel leaf is unreachable).  Follows the
source's phases in order: named constants, the `inf` rejection, unary
negation, the function-prefix scan with bracket check, the numeric literal
regexes, then the anti-precedence operator passes; falls through to the
`Invalid number` sentinel. -/
def parseNumberGo (ops : MathOps) (argName : String) : Nat → List Char → Except String ℚ
  | 0, _ => .error (numErrMsg argName "Invalid number")
  | fuel + 1, s =>
    if s = "pi".data then .ok ops.piVal
    else if s = "tau".data then .ok ops.tauVal
    else if s = "phi".data then .ok ops.phiVal
    else if s = "e".data then .ok ops.eVal
    else if s = "inf".data then .error (numErrMsg argName "Infinity is not a number")
    else
      match s with
      | '-' :: restNeg =>
        (match parseNumberGo ops argName fuel restNeg with
         | .error e => .error e
         | .ok v => .ok (-v))
      | sOther =>
        match firstMatchingFunction sOther with
        | some (spec, part) =>
          (match parseNumberGo ops argName fuel part with
           | .error e => .error e
           | .ok v =>
             if spec.constraintIf v then .error (numErrMsg argName spec.constraintBody)
             else .ok (spec.compute ops v))
        | none =>
          match numericLiteralValue sOther with
          | some v => .ok v
          | none =>
            match opSplitLoop argName sOther operators with
            | .error e => .error e
            | .ok none => .error (numErrMsg argName "Invalid number")
            | .ok (some ((opName, opFunc), idx)) =>
              (match parseNumberGo ops argName fuel (sOther.take idx) with
               | .error e => .error e
               | .ok a =>
                 match parseNumberGo ops argName fuel (sOther.drop (idx + 1)) with
                 | .error e => .error e
                 | .ok b =>
                   if b = 0 ∧ opName = '/' then .error (numErrMsg argName "Can't divide by zero")
                   else .ok (opFunc ops a b))

/-- `_parseNumber` itself: run the fueled recursion with enough fuel. -/
def parseNumberAux (ops : MathOps) (argName : String) (s : List Char) : Except String ℚ :=
  parseNumberGo ops argName (s.length + 1) s

/-- `_parseNumber` on a string. -/
def parseNumberStr (ops : MathOps) (argName : String) (s : String) : Except String ℚ :=
  parseNumberAux ops argName s.data

/-! ## Typed value setter (`TerminalParser._parseArgumentValue`) -/

/-- A matrix cell pattern: `-?[0-9]+(\.[0-9]+)?` or a single `[a-z]`. -/
def matrixCellB (l : List Char) : Bool :=
  (match l with
   | '-' :: rest => decimalRegexB rest || intRegexB rest
   | rest => decimalRegexB rest || intRegexB rest) ||
  (match l with
   | [c] => decide ('a' ≤ c) && decide (c ≤ 'z')
   | _ => false)

/-- The matrix validation regex of `_parseArgumentValue`: a bracketed,
`/`-separated list of rows of `,`-separated cells. -/
def matrixRegexB (l : List Char) : Bool :=
  match l with
  | '[' :: rest =>
    (match rest.reverse with
     | ']' :: revInner =>
       let inner := revInner.reverse
       ((splitOnChar '/' inner).map (splitOnChar ',')).all (fun row => row.all matrixCellB)
     | _ => false)
  | _ => false

/-- `addVal` inside `_parseArgumentValue`: expanding options append to a
truthy existing value with a space (JavaScript `+` string coercion);
everything else overwrites; sets `isManuallySetValue`. -/
def addVal (argOption : ArgOption) (v : JSVal) : ArgOption :=
  let v := if argOption.expanding ∧ jsTruthy argOption.value then
      JSVal.str (jsToString (argOption.value.getD (.str "")) ++ " " ++ jsToString v)
    else v
  { argOption with value := some v, isManuallySetValue := true }

/-- The `error` closure of `_parseArgumentValue`: writes the message and
the owning option's token location into the shared `parsingError`. -/
def peSet (pe : ParsingError) (argOption : ArgOption) (msg : String) : ParsingError :=
  { pe with message := some msg, tokenIndex := argOption.tokenIndex, tokenSpan := argOption.tokenSpan }

/-- The `number` branch of `_parseArgumentValue`: runs the expression
evaluator, then the integer/range checks.  A non-string value throws
`TypeError` when `.startsWith` is called on it.  The source's
`Number.isFinite`/`Number.isNaN` guards have no counterpart in the exact
rational model (every ℚ is finite and a number), so they cannot fire. -/
def pavNumber (ops : MathOps) (argOption : ArgOption) (value : JSVal) (pe : ParsingError) :
    Except JsErr (ArgOption × ParsingError) :=
  match value with
  | .str s =>
    match parseNumberAux ops argOption.name s.data with
    | .error msg => .ok (argOption, peSet pe argOption msg)
    | .ok num =>
      if argOption.numtype = some "integer" ∧ num.den ≠ 1 then
        .ok (argOption, peSet pe argOption ("At property \"" ++ argOption.name ++ "\": Expected an integer"))
      else if (match argOption.min with | some m => decide (num < m) | none => false) then
        .ok (argOption, peSet pe argOption ("At property \"" ++ argOption.name ++ "\": Number must be at least " ++ jsToString (.num (argOption.min.getD 0))))
      else if (match argOption.max with | some m => decide (num > m) | none => false) then
        .ok (argOption, peSet pe argOption ("At property \"" ++ argOption.name ++ "\": Number must be at most " ++ jsToString (.num (argOption.max.getD 0))))
      else .ok (addVal argOption (.num num), pe)
  | _ => .error .typeError

/-- The `boolean` branch: accepts the literal forms `true/false/1/0` and
the planted boolean. -/
def pavBoolean (argOption : ArgOption) (value : JSVal) (pe : ParsingError) :
    Except JsErr (ArgOption × ParsingError) :=
  let isTrueForm := value = .str "true" ∨ value = .bool true ∨ value = .str "1"
  let isFalseForm := value = .str "false" ∨ value = .bool false ∨ value = .str "0"
  if ¬(isTrueForm ∨ isFalseForm) then
    .ok (argOption, peSet pe argOption ("At property \"" ++ argOption.name ++ "\": Expected a boolean"))
  else .ok (addVal argOption (.bool (decide isTrueForm)), pe)

/-- The `bigint` branch: `BigInt(value)` or the caught conversion error. -/
def pavBigint (argOption : ArgOption) (value : JSVal) (pe : ParsingError) :
    Except JsErr (ArgOption × ParsingError) :=
  match jsBigInt value with
  | some n => .ok (addVal argOption (.bigint n), pe)
  | none => .ok (argOption, peSet pe argOption ("At property \"" ++ argOption.name ++ "\": Expected an integer"))

/-- The `file` branch: the external `terminal.fileExists` predicate. -/
def pavFile (ext : TerminalEnv) (argOption : ArgOption) (value : JSVal) (pe : ParsingError) :
    Except JsErr (ArgOption × ParsingError) :=
  if ¬ext.fileExists value then
    .ok (argOption, peSet pe argOption ("File not found: \"" ++ jsToString value ++ "\""))
  else .ok (addVal argOption value, pe)

/-- The `command` branch: the external `terminal.commandExists` predicate. -/
def pavCommand (ext : TerminalEnv) (argOption : ArgOption) (value : JSVal) (pe : ParsingError) :
    Except JsErr (ArgOption × ParsingError) :=
  if ¬ext.commandExists value then
    .ok (argOption, peSet pe argOption ("Command not found: \"" ++ jsToString value ++ "\""))
  else .ok (addVal argOption value, pe)

/-- The `enum` branch: membership in the declared options; an enum
compiled without a constraint has `enumOptions === undefined`, so
`.includes` throws `TypeError`. -/
def pavEnum (argOption : ArgOption) (value : JSVal) (pe : ParsingError) :
    Except JsErr (ArgOption × ParsingError) :=
  match argOption.enumOptions with
  | none => .error .typeError
  | some opts =>
    if (match value with | .str s => opts.contains s | _ => false) = false then
      .ok (argOption, peSet pe argOption ("Invalid Option: \"" ++ jsToString value ++ "\""))
    else .ok (addVal argOption value, pe)

/-- The `matrix`/`square-matrix` branch: strict pattern validation, then
row splitting with `parseFloat` on numeric cells, equal-row-length check,
and the squareness check for the square variant. -/
def pavMatrix (argOption : ArgOption) (value : JSVal) (pe : ParsingError) :
    Except JsErr (ArgOption × ParsingError) :=
  let sv := jsToString value
  if ¬matrixRegexB sv.data then
    .ok (argOption, peSet pe argOption "Invalid matrix. Use syntax: [1,2/a,4]")
  else
    let inner := (sv.data.drop 1).dropLast
    let rows := (splitOnChar '/' inner).map (fun rowStr =>
      (splitOnChar ',' rowStr).map (fun cell =>
        if (match cell with
            | '-' :: rest => decimalRegexB rest || intRegexB rest
            | rest => decimalRegexB rest || intRegexB rest) then
          MatCell.num ((parseJsFloat cell).getD 0)
        else MatCell.sym (String.mk cell)))
    if rows.any (fun row => row.length ≠ (rows.headD []).length) then
      .ok (argOption, peSet pe argOption "Matrix must have equal sized rows.")
    else if argOption.type = "square-matrix" ∧ rows.length ≠ (rows.headD []).length then
      .ok (argOption, peSet pe argOption "Matrix must be square.")
    else .ok (addVal argOption (.matrix rows), pe)

/-- `TerminalParser._parseArgumentValue(argOption, value, parsingError)`:
dispatches on the option's declared type, writing either an updated option
(via `addVal`) or an error message into the `parsingError`; the trailing
branch is the string passthrough. -/
def parseArgumentValue (ops : MathOps) (ext : TerminalEnv) (argOption : ArgOption)
    (value : JSVal) (pe : ParsingError) : Except JsErr (ArgOption × ParsingError) :=
  if argOption.type = "number" then pavNumber ops argOption value pe
  else if argOption.type = "boolean" then pavBoolean argOption value pe
  else if argOption.type = "bigint" then pavBigint argOption value pe
  else if argOption.type = "file" then pavFile ext argOption value pe
  else if argOption.type = "command" then pavCommand ext argOption value pe
  else if argOption.type = "enum" then pavEnum argOption value pe
  else if argOption.type = "matrix" ∨ argOption.type = "square-matrix" then pavMatrix argOption value pe
  else .ok (addVal argOption value, pe)

/-! ## Named-argument pass (`TerminalParser.parseNamedArgs`) -/

/-- The flag-token test `/^--?[a-zA-Z][a-zA-Z0-9:_\-:.]*$/`. -/
def isFlagToken (t : List Char) : Bool :=
  let body := match t with
    | '-' :: '-' :: rest => some rest
    | '-' :: rest => some rest
    | _ => none
  match body with
  | some (c :: cs) =>
    c.isAlpha && cs.all (fun d => d.isAlpha || d.isDigit || d = ':' || d = '_' || d = '-' || d = '.')
  | _ => false

/-- The match predicate of `TerminalParser.getArgOption`:
`arg.name == argName || arg.forms.includes(argName)`. -/
def argMatches (a : ArgOption) (argName : String) : Bool :=
  a.name == argName || a.forms.contains argName

/-- Position-tracking scan behind `findArgOptionPair`. -/
def findArgGo (argName : String) : List ArgOption → Nat → Option (Nat × ArgOption)
  | [], _ => none
  | a :: rest, i =>
    if argMatches a argName then some (i, a) else findArgGo argName rest (i + 1)

/-- `TerminalParser.getArgOption`, with the position of the found option so
the caller can write the mutation back. -/
def findArgOptionPair (argOptions : List ArgOption) (argName : String) : Option (Nat × ArgOption) :=
  findArgGo argName argOptions 0

/-- The `handleArg` closure of `parseNamedArgs`: resolves a flag name and
either errors (unknown property, non-optional property, missing value),
auto-sets a boolean to `true` without consuming the next token
(`deleteNext = false`), or consumes the next token as the value.  Returns
the updated options, the updated `parsingError` and the `deleteNext`
flag. -/
def handleArg (ops : MathOps) (ext : TerminalEnv) (argOptions : List ArgOption)
    (pe : ParsingError) (i : Nat) (nextToken : Option String) (name : String) :
    Except JsErr (List ArgOption × ParsingError × Bool) :=
  match findArgOptionPair argOptions name with
  | none =>
    .ok (argOptions, { pe with message := some ("Unexpected property \"" ++ name ++ "\""), tokenIndex := some i }, true)
  | some (idx, argOption) =>
    if ¬argOption.optional then
      .ok (argOptions.set idx { argOption with tokenIndex := some i },
        { pe with
          message := some ("Property \"" ++ argOption.name ++ "\" is not optional, must be passed directly")
          tokenIndex := some i
          tokenSpan := 1 }, true)
    else if argOption.type = "boolean" then
      match parseArgumentValue ops ext { argOption with tokenIndex := some i } (.bool true) pe with
      | .error e => .error e
      | .ok (argOption', pe') => .ok (argOptions.set idx argOption', pe', false)
    else
      match nextToken with
      | some nt =>
        match parseArgumentValue ops ext { argOption with tokenIndex := some i, tokenSpan := 1 } (.str nt) pe with
        | .error e => .error e
        | .ok (argOption', pe') => .ok (argOptions.set idx argOption', pe', true)
      | none =>
        .ok (argOptions, { pe with
          message := some ("property \"" ++ argOption.name ++ "\" (" ++ argOption.typeName ++ ") expects a value")
          tokenIndex := some (i + 1) }, true)

/-- The clustered short-flag loop of `parseNamedArgs` (single-dash token of
length ≥ 3): iterates the token's characters with their positions.  A `-`
character is skipped (`continue`); any character resolving to an option is
first auto-assigned the boolean `true` (throwing `TypeError` for a
number-typed option); the last character goes through `handleArg`; a
non-terminal character errors unless it resolved to a boolean option.  The
final `Bool` is `true` when the source `return null`s out of the token
(before pushing delete indices). -/
def clusterGo (ops : MathOps) (ext : TerminalEnv) (lastIdx : Nat) (i : Nat)
    (nextToken : Option String) :
    List (Nat × Char) → List ArgOption → ParsingError → Bool →
    Except JsErr (List ArgOption × ParsingError × Bool × Bool)
  | [], argOptions, pe, deleteNext => .ok (argOptions, pe, deleteNext, false)
  | (j, c) :: rest, argOptions, pe, deleteNext =>
    if c = '-' then clusterGo ops ext lastIdx i nextToken rest argOptions pe deleteNext
    else
      match findArgOptionPair argOptions (String.mk [c]) with
      | some (idx, argOption) =>
        (match parseArgumentValue ops ext { argOption with tokenIndex := some i } (.bool true) pe with
         | .error e => .error e
         | .ok (argOption', pe') =>
           let argOptions := argOptions.set idx argOption'
           if j = lastIdx then
             match handleArg ops ext argOptions pe' i nextToken (String.mk [c]) with
             | .error e => .error e
             | .ok (argOptions', pe'', dn) =>
               if pe''.message.isSome then .ok (argOptions', pe'', dn, true)
               else clusterGo ops ext lastIdx i nextToken rest argOptions' pe'' dn
           else
             let pe'' := if argOption'.type ≠ "boolean" then
                 { pe' with
                   message := some ("Property \"" ++ String.mk [c] ++ "\" is not a boolean and must be assigned a value")
                   tokenIndex := some i }
               else pe'
             if pe''.message.isSome then .ok (argOptions, pe'', deleteNext, true)
             else clusterGo ops ext lastIdx i nextToken rest argOptions pe'' deleteNext)
      | none =>
        if j = lastIdx then
          match handleArg ops ext argOptions pe i nextToken (String.mk [c]) with
          | .error e => .error e
          | .ok (argOptions', pe'', dn) =>
            if pe''.message.isSome then .ok (argOptions', pe'', dn, true)
            else clusterGo ops ext lastIdx i nextToken rest argOptions' pe'' dn
        else
          .ok (argOptions, { pe with message := some ("Unexpected property \"" ++ String.mk [c] ++ "\""), tokenIndex := some i }, deleteNext, true)

/-- The per-flag-token dispatch of `parseNamedArgs`: the `--long` shape,
the single-character `-x` shape (token length exactly 2), or the clustered
short-flag loop.  The direct shapes wrap `handleArg`; the final `Bool` of
the result is the cluster loop's `return null` marker (always `false` for
the direct shapes, whose error check happens after the delete-index
pushes). -/
def namedFlagBranch (ops : MathOps) (ext : TerminalEnv) (argOptions : List ArgOption)
    (pe : ParsingError) (i : Nat) (nextToken : Option String) (t : List Char) :
    Except JsErr (List ArgOption × ParsingError × Bool × Bool) :=
  match t with
  | '-' :: '-' :: restName =>
    (match handleArg ops ext argOptions pe i nextToken (String.mk restName) with
     | .error e => .error e
     | .ok (o, p, dn) => .ok (o, p, dn, false))
  | _ =>
    if t.length = 2 then
      (match handleArg ops ext argOptions pe i nextToken (String.mk (t.drop 1)) with
       | .error e => .error e
       | .ok (o, p, dn) => .ok (o, p, dn, false))
    else
      clusterGo ops ext (t.length - 1) i nextToken t.enum argOptions pe true

/-- The main token loop of `parseNamedArgs` over position-annotated tokens.
On a flag-shaped token it dispatches to `handleArg` (`--long`, single-char
`-x`) or the cluster loop, then records the token index (plus the next
index when `deleteNext`) in `deleteIndeces`; a populated error message
makes the function return `null` (modelled as `none`). -/
def parseNamedArgsGo (ops : MathOps) (ext : TerminalEnv) (tokens : List String) :
    List (Nat × String) → List ArgOption → ParsingError → List Nat →
    Except JsErr (Option (List Nat) × List ArgOption × ParsingError)
  | [], argOptions, pe, deleteIndeces => .ok (some deleteIndeces, argOptions, pe)
  | (i, currToken) :: rest, argOptions, pe, deleteIndeces =>
    let nextToken := tokens[i + 1]?
    if isFlagToken currToken.data then
      match namedFlagBranch ops ext argOptions pe i nextToken currToken.data with
      | .error e => .error e
      | .ok (argOptions', pe', deleteNext, aborted) =>
        if aborted then .ok (none, argOptions', pe')
        else
          let deleteIndeces := deleteIndeces ++ [i] ++ (if deleteNext then [i + 1] else [])
          if pe'.message.isSome then .ok (none, argOptions', pe')
          else parseNamedArgsGo ops ext tokens rest argOptions' pe' deleteIndeces
    else
      if pe.message.isSome then .ok (none, argOptions, pe)
      else parseNamedArgsGo ops ext tokens rest argOptions pe deleteIndeces

/-- `TerminalParser.parseNamedArgs(tokens, argOptions, parsingError)`. -/
def parseNamedArgs (ops : MathOps) (ext : TerminalEnv) (tokens : List String)
    (argOptions : List ArgOption) (pe : ParsingError) :
    Except JsErr (Option (List Nat) × List ArgOption × ParsingError) :=
  parseNamedArgsGo ops ext tokens tokens.enum argOptions pe []

/-! ## Full resolution (`TerminalParser.parseArguments`) -/

/-- A command's declared argument schema: either a plain ordered list of
spec strings or an object mapping spec strings to descriptions
(`args.toString() == "[object Object]"` in source). -/
inductive ArgsDecl where
  | list (specs : List String)
  | obj (entries : List (String × String))
deriving DecidableEq, Repr

/-- The slice of a `Command` that `parseArguments` and `Command.run`
consume: name, declared schema, default values, raw-arg-mode flag. -/
structure CommandSpec where
  name : String
  args : ArgsDecl
  defaultValues : List (String × JSVal)
  rawArgMode : Bool
deriving Repr

/-- The `defaultValues` pass of `parseArguments`: looks each name up with
`getArgOption` and writes `default`/`value`; an unknown name dereferences
`undefined` and throws `TypeError`. -/
def applyDefaults : List ArgOption → List (String × JSVal) → Except JsErr (List ArgOption)
  | argOptions, [] => .ok argOptions
  | argOptions, (name, v) :: rest =>
    match findArgOptionPair argOptions name with
    | none => .error .typeError
    | some (idx, argOption) =>
      applyDefaults (argOptions.set idx { argOption with defaultVal := some v, value := some v }) rest

/-- The description pass of `parseArguments` for object-form schemas:
writes each entry's description onto the option at the same index,
expanding `<enum>` in enum descriptions (an enum compiled without options
throws `TypeError` on `.join`). -/
def applyDescriptions (argOptions : List ArgOption) : List (String × String) → Nat → Except JsErr (List ArgOption)
  | [], _ => .ok argOptions
  | (_, desc) :: rest, i =>
    match argOptions[i]? with
    | none => .error .typeError
    | some argOption =>
      if argOption.type = "enum" then
        match argOption.enumOptions with
        | none => .error .typeError
        | some opts =>
          applyDescriptions
            (argOptions.set i { argOption with description := desc.replace "<enum>" (String.intercalate " | " opts) })
            rest (i + 1)
      else
        applyDescriptions (argOptions.set i { argOption with description := desc }) rest (i + 1)

/-- The positional pass of `parseArguments`: walks position-annotated
tokens, skipping `ignoreIndeces`; assigns each remaining token to the
option at `argOptionIndex` (erroring `Too many arguments` past the end);
an expanding option keeps absorbing tokens (tracking `tokenIndex`/
`tokenSpan`) instead of advancing.  The `Bool` marks an early `return`. -/
def positionalGo (ops : MathOps) (ext : TerminalEnv) (ignoreIndeces : List Nat) :
    List (Nat × String) → Nat → List ArgOption → ParsingError →
    Except JsErr (List ArgOption × ParsingError × Bool)
  | [], _, argOptions, pe => .ok (argOptions, pe, false)
  | (i, token) :: rest, argOptionIndex, argOptions, pe =>
    if ignoreIndeces.contains i then positionalGo ops ext ignoreIndeces rest argOptionIndex argOptions pe
    else
      match argOptions[argOptionIndex]? with
      | none =>
        .ok (argOptions, { pe with
          message := some "Too many arguments"
          tokenIndex := some i
          tokenSpan := 99999 }, true)
      | some argOption =>
        let (argOption, nextIndex) :=
          if argOption.expanding then
            if ¬argOption.hasExpanded then
              ({ argOption with tokenIndex := some i, tokenSpan := 0, hasExpanded := true }, argOptionIndex)
            else
              ({ argOption with tokenSpan := argOption.tokenSpan + 1 }, argOptionIndex)
          else ({ argOption with tokenIndex := some i }, argOptionIndex + 1)
        match parseArgumentValue ops ext argOption (.str token) pe with
        | .error e => .error e
        | .ok (argOption', pe') =>
          let argOptions := argOptions.set argOptionIndex argOption'
          if pe'.message.isSome then .ok (argOptions, pe', true)
          else positionalGo ops ext ignoreIndeces rest nextIndex argOptions pe'

/-- The final missing-required-argument check of `parseArguments`. -/
def missingRequired (argOptions : List ArgOption) (pe : ParsingError) : ParsingError :=
  match argOptions.find? (fun arg => !arg.optional && !arg.isManuallySetValue) with
  | some arg =>
    { pe with
      message := some ("argument \"" ++ arg.name ++ "\" (" ++ arg.typeName ++ ") is missing")
      tokenIndex := some 99999 }
  | none => pe

/-- `TerminalParser.parseArguments(tempTokens, command)`: compiles the
schema, applies defaults and descriptions, runs the named pass, always
appends index `0` (the command-name token) to the ignore list, runs the
positional pass, and checks for missing required arguments.  The result is
the populated options together with the shared `parsingError`; thrown
exceptions surface on the `Except.error` channel. -/
def parseArguments (ops : MathOps) (ext : TerminalEnv) (tempTokens : List String)
    (command : CommandSpec) : Except JsErr (List ArgOption × ParsingError) := do
  let argsArray := match command.args with
    | .list l => l
    | .obj kvs => kvs.map Prod.fst
  let argOptions ← argsArray.mapM parseArgOptions
  let pe : ParsingError := ParsingError.init
  let argOptions ← applyDefaults argOptions command.defaultValues
  let argOptions ← match command.args with
    | .obj kvs => applyDescriptions argOptions kvs 0
    | .list _ => pure argOptions
  match parseNamedArgs ops ext tempTokens argOptions pe with
  | .error e => .error e
  | .ok (maybeDeleteIndeces, argOptions, pe) =>
    if pe.message.isSome then .ok (argOptions, pe)
    else
      match maybeDeleteIndeces with
      | none => .error .typeError
      | some deleteIndeces =>
        let ignoreIndeces := deleteIndeces ++ [0]
        match positionalGo ops ext ignoreIndeces tempTokens.enum 0 argOptions pe with
        | .error e => .error e
        | .ok (argOptions, pe, earlyReturn) =>
          if earlyReturn then .ok (argOptions, pe)
          else .ok (argOptions, missingRequired argOptions pe)

/-! ## Command dispatch (`Command.processArgs`, `Command.run`) -/

/-- The outcome categories of the `try` body of `Command.run`: the
`IntendedError` control-flow signal versus any other (defect) exception,
which carries `error.name` and `error.message` for the log. -/
inductive RunErr where
  | intended
  | defect (name : String) (msg : String)
deriving DecidableEq, Repr

/-- How a thrown parser exception surfaces inside `Command.run`'s catch:
it is not an `IntendedError`, so it is logged as a defect under its
JavaScript class name. -/
def jsErrToRunErr : JsErr → RunErr
  | .developerError msg => .defect "DeveloperError" msg
  | .typeError => .defect "TypeError" ""

/-- What `Command.processArgs` hands the callback: the resolved name→value
object (every alias form mapped to the option's value) or, in raw-arg
mode, the unparsed remainder string. -/
inductive ProcessedArgs where
  | obj (entries : List (String × Option JSVal))
  | raw (s : String)
deriving DecidableEq, Repr

/-- The `valueObject` constructed by `Command.processArgs` on success. -/
def valueObject (argOptions : List ArgOption) : List (String × Option JSVal) :=
  argOptions.foldl (fun acc a => a.forms.foldl (fun acc f =>
    (acc.filter (fun kv => kv.1 ≠ f)) ++ [(f, a.value)]) acc) []

/-- `Command.processArgs(tokens, rawArgs)`: raw-arg-mode commands receive
the raw remainder; otherwise the resolver runs, and a populated error
message prints the usage summary (second component) and throws
`IntendedError`. -/
def processArgs (ops : MathOps) (ext : TerminalEnv) (command : CommandSpec)
    (tokens : List String) (rawArgs : String) : Except RunErr ProcessedArgs × Bool :=
  if command.rawArgMode then (.ok (.raw rawArgs), false)
  else
    match parseArguments ops ext tokens command with
    | .error e => (.error (jsErrToRunErr e), false)
    | .ok (argOptions, pe) =>
      match pe.message with
      | some _ => (.error .intended, true)
      | none => (.ok (.obj (valueObject argOptions)), false)

/-- The observable effects of one `Command.run` invocation: how many times
the dispatcher called `terminal.finishCommand()`, which defects it logged
via `printError`, and whether a parser usage/error message was printed. -/
structure RunEffects where
  finishCalls : Nat
  defectLogs : List (String × String)
  printedParseError : Bool
deriving DecidableEq, Repr

/-- The result of the `try` body of `Command.run`: argument processing
(when `processArgsFlag`), then the handler, abstracted by its outcome. -/
def runBody (ops : MathOps) (ext : TerminalEnv) (command : CommandSpec)
    (tokens : List String) (rawArgs : String) (callbackOutcome : Except RunErr Unit)
    (processArgsFlag : Bool) : Except RunErr Unit × Bool :=
  if processArgsFlag then
    match processArgs ops ext command tokens rawArgs with
    | (.error e, printed) => (.error e, printed)
    | (.ok _, printed) =>
      match callbackOutcome with
      | .ok _ => (.ok (), printed)
      | .error e => (.error e, printed)
  else
    (callbackOutcome, false)

/-- `Command.run(tokens, rawArgs, {callFinishFunc, processArgs})`: runs the
body under the single `try`/`catch`; on success calls `finishCommand` once
(when requested) and returns `true`; in the catch, logs the error unless it
is the `IntendedError` control-flow signal, calls `finishCommand` once
(when requested), and returns the sleep-activity comparison, abstracted as
`activityFlag`. -/
def commandRun (ops : MathOps) (ext : TerminalEnv) (command : CommandSpec)
    (tokens : List String) (rawArgs : String) (callbackOutcome : Except RunErr Unit)
    (callFinishFunc : Bool) (processArgsFlag : Bool) (activityFlag : Bool) :
    Bool × RunEffects :=
  match runBody ops ext command tokens rawArgs callbackOutcome processArgsFlag with
  | (.ok _, printed) =>
    (true, { finishCalls := if callFinishFunc then 1 else 0, defectLogs := [], printedParseError := printed })
  | (.error e, printed) =>
    let logs := match e with
      | .intended => []
      | .defect n m => [(n, m)]
    (activityFlag, { finishCalls := if callFinishFunc then 1 else 0, defectLogs := logs, printedParseError := printed })

/-! ## Characterization of the operator split (support for C2) -/

/-- Parenthesis nesting depth accumulated over a prefix of the scanned
string, with the same per-character update as the scan itself. -/
def parenDepth (l : List Char) : Int :=
  l.foldl (fun acc c => stepLevel c acc) 0

/-- `j` is an occurrence of the operator at parenthesis depth 0. -/
def IsTopLevelOcc (opName : Char) (s : List Char) (j : Nat) : Prop :=
  s[j]? = some opName ∧ parenDepth (s.take j) = 0

theorem parenDepth_append_one (l : List Char) (c : Char) :
    parenDepth (l ++ [c]) = stepLevel c (parenDepth l) := by
  simp [parenDepth, List.foldl_append]

theorem stepLevel_of_ne (c : Char) (lev : Int) (h1 : c ≠ '(') (h2 : c ≠ ')') :
    stepLevel c lev = lev := by
  simp [stepLevel, h1, h2]

theorem opScanGo_last_top {argName : String} {opName : Char}
    (hpar1 : opName ≠ '(') (hpar2 : opName ≠ ')') :
    ∀ (l pre : List Char) (found : Option Nat) (r : Option Nat),
      (∀ j, found = some j → IsTopLevelOcc opName (pre ++ l) j ∧ j < pre.length) →
      (∀ j, j < pre.length → IsTopLevelOcc opName (pre ++ l) j → ∃ f, found = some f ∧ j ≤ f) →
      opScanGo argName opName l pre.length (parenDepth pre) found = .ok r →
      (∀ j, r = some j → IsTopLevelOcc opName (pre ++ l) j) ∧
      (∀ j, IsTopLevelOcc opName (pre ++ l) j → ∃ f, r = some f ∧ j ≤ f) := by
  intro l
  induction l with
  | nil =>
    intro pre found r hsound hmax h
    simp only [opScanGo] at h
    split at h
    · exact absurd h (by simp)
    · simp only [Except.ok.injEq] at h
      subst h
      constructor
      · intro j hj
        exact (hsound j hj).1
      · intro j hj
        apply hmax j _ hj
        have := hj.1
        have hlt := List.getElem?_eq_some.mp this
        simpa using hlt.1
  | cons c rest ih =>
    intro pre found r hsound hmax h
    simp only [opScanGo] at h
    split at h
    · exact absurd h (by simp)
    · rename_i hnneg
      have hassoc : pre ++ c :: rest = (pre ++ [c]) ++ rest := by simp
      have hlen1 : (pre ++ [c]).length = pre.length + 1 := by simp
      have hdep : stepLevel c (parenDepth pre) = parenDepth (pre ++ [c]) :=
        (parenDepth_append_one pre c).symm
      rw [hdep] at h
      rw [show pre.length + 1 = (pre ++ [c]).length from hlen1.symm] at h
      -- facts about position `pre.length`
      have hgetc : (pre ++ c :: rest)[pre.length]? = some c := by
        rw [List.getElem?_append_right (Nat.le_refl _)]
        simp
      have htake : (pre ++ c :: rest).take pre.length = pre := by
        rw [show pre ++ c :: rest = pre ++ (c :: rest) from rfl]
        exact List.take_left pre (c :: rest)
      have hcase : ∀ j, (if c = opName ∧ parenDepth (pre ++ [c]) = 0 then some pre.length else found) = some j →
          IsTopLevelOcc opName ((pre ++ [c]) ++ rest) j ∧ j < (pre ++ [c]).length := by
        intro j hj
        split at hj
        · rename_i hcond
          simp only [Option.some.injEq] at hj
          subst hj
          refine ⟨⟨?_, ?_⟩, by simp⟩
          · rw [← hassoc, hgetc, hcond.1]
          · rw [← hassoc, htake]
            have := hcond.2
            rw [parenDepth_append_one, hcond.1, stepLevel_of_ne opName _ hpar1 hpar2] at this
            exact this
        · have := hsound j hj
          rw [hassoc] at this
          exact ⟨this.1, by simp only [hlen1]; omega⟩
      have hcasemax : ∀ j, j < (pre ++ [c]).length → IsTopLevelOcc opName ((pre ++ [c]) ++ rest) j →
          ∃ f, (if c = opName ∧ parenDepth (pre ++ [c]) = 0 then some pre.length else found) = some f ∧ j ≤ f := by
        intro j hjlt hj
        rw [← hassoc] at hj
        rw [hlen1] at hjlt
        by_cases hjpre : j < pre.length
        · obtain ⟨f, hf, hjf⟩ := hmax j hjpre hj
          split
          · rename_i hcond
            refine ⟨pre.length, rfl, by omega⟩
          · exact ⟨f, hf, hjf⟩
        · have hjeq : j = pre.length := by omega
          subst hjeq
          have hc : c = opName := by
            have := hj.1
            rw [hgetc] at this
            have := Option.some.inj this
            exact this
          have hdep0 : parenDepth (pre ++ [c]) = 0 := by
            rw [parenDepth_append_one, hc, stepLevel_of_ne opName _ hpar1 hpar2]
            have := hj.2
            rwa [htake] at this
          rw [if_pos ⟨hc, hdep0⟩]
          exact ⟨pre.length, rfl, Nat.le_refl _⟩
      have := ih (pre ++ [c]) _ r hcase hcasemax h
      rw [← hassoc] at this
      exact this

theorem opScan_last_top {argName : String} {opName : Char} {s : List Char} {k : Nat}
    (hpar1 : opName ≠ '(') (hpar2 : opName ≠ ')')
    (h : opScan argName opName s = .ok (some k)) :
    IsTopLevelOcc opName s k ∧ ∀ j, IsTopLevelOcc opName s j → j ≤ k := by
  have := opScanGo_last_top hpar1 hpar2 s [] none (some k) (by simp) (by simp)
    (by simpa [parenDepth] using h)
  simp only [List.nil_append] at this
  refine ⟨this.1 k rfl, ?_⟩
  intro j hj
  obtain ⟨f, hf, hjf⟩ := this.2 j hj
  simp only [Option.some.injEq] at hf
  omega

/-! ## Shape of the numeric evaluator's failures (support for C4) -/

theorem opScanGo_error_shape {argName : String} {opName : Char} :
    ∀ (l : List Char) (i : Nat) (lev : Int) (found : Option Nat) (msg : String),
      opScanGo argName opName l i lev found = .error msg →
      msg = numErrMsg argName "Unbalanced parentheses" := by
  intro l
  induction l with
  | nil =>
    intro i lev found msg h
    simp only [opScanGo] at h
    split at h
    · exact (Except.error.inj h).symm
    · exact absurd h (by simp)
  | cons c rest ih =>
    intro i lev found msg h
    simp only [opScanGo] at h
    split at h
    · exact (Except.error.inj h).symm
    · exact ih _ _ _ _ h

theorem opSplitLoop_error_shape {argName : String} {s : List Char} :
    ∀ (ops : List (Char × (MathOps → ℚ → ℚ → ℚ))) (msg : String),
      opSplitLoop argName s ops = .error msg →
      msg = numErrMsg argName "Unbalanced parentheses" := by
  intro opsList
  induction opsList with
  | nil => intro msg h; simp [opSplitLoop] at h
  | cons hd tl ih =>
    intro msg h
    obtain ⟨opName, opFunc⟩ := hd
    simp only [opSplitLoop] at h
    split at h
    · rename_i e hscan
      have := Except.error.inj h
      subst this
      exact opScanGo_error_shape _ _ _ _ _ hscan
    · exact ih _ h
    · exact absurd h (by simp)

/-- Every failure of `_parseNumber` is the in-band sentinel carrying a
message of the uniform shape `At property "<name>": <body>`: proved by
induction over the fueled recursion. -/
theorem parseNumberGo_error_shape (ops : MathOps) (argName : String) :
    ∀ (fuel : Nat) (s : List Char) (msg : String),
      parseNumberGo ops argName fuel s = .error msg →
      ∃ body, msg = numErrMsg argName body := by
  intro fuel
  induction fuel with
  | zero =>
    intro s msg h
    simp only [parseNumberGo] at h
    exact ⟨_, (Except.error.inj h).symm⟩
  | succ n ih =>
    intro s msg h
    simp only [parseNumberGo] at h
    split at h
    · exact absurd h (by simp)
    · split at h
      · exact absurd h (by simp)
      · split at h
        · exact absurd h (by simp)
        · split at h
          · exact absurd h (by simp)
          · split at h
            · exact ⟨_, (Except.error.inj h).symm⟩
            · split at h
              · -- unary negation branch
                split at h
                · rename_i e hrec
                  have := Except.error.inj h
                  subst this
                  exact ih _ _ hrec
                · exact absurd h (by simp)
              · -- non-negation branch
                split at h
                · -- function-prefix branch
                  split at h
                  · rename_i e hrec
                    have := Except.error.inj h
                    subst this
                    exact ih _ _ hrec
                  · split at h
                    · exact ⟨_, (Except.error.inj h).symm⟩
                    · exact absurd h (by simp)
                · -- literal / operator branches
                  split at h
                  · exact absurd h (by simp)
                  · split at h
                    · rename_i e hop
                      have := Except.error.inj h
                      subst this
                      exact ⟨_, opSplitLoop_error_shape _ _ hop⟩
                    · exact ⟨_, (Except.error.inj h).symm⟩
                    · split at h
                      · rename_i e hrec
                        have := Except.error.inj h
                        subst this
                        exact ih _ _ hrec
                      · split at h
                        · rename_i e hrec
                          have := Except.error.inj h
                          subst this
                          exact ih _ _ hrec
                        · split at h
                          · exact ⟨_, (Except.error.inj h).symm⟩
                          · exact absurd h (by simp)

/-- Sentinel shape of `_parseNumber` failures at the standard fuel. -/
theorem parseNumberAux_error_shape (ops : MathOps) (argName : String) (s : List Char)
    (msg : String) (h : parseNumberAux ops argName s = .error msg) :
    ∃ body, msg = numErrMsg argName body :=
  parseNumberGo_error_shape ops argName _ s msg h

/-- The fueled numeric evaluator does not depend on the fuel, as long as
the fuel exceeds the string length: every recursive call of the source
strictly shrinks the string, so the zero-fuel leaf is unreachable and the
embedding agrees with the JavaScript recursion. -/
theorem parseNumberGo_irrel_aux (ops : MathOps) (argName : String) :
    ∀ (len : Nat) (s : List Char), s.length = len → ∀ (n m : Nat), s.length < n → s.length < m →
      parseNumberGo ops argName n s = parseNumberGo ops argName m s := by
  intro len
  induction len using Nat.strong_induction_on with
  | _ len ihlen =>
    intro s hslen n m hn hm
    cases n with
    | zero => omega
    | succ n' =>
      cases m with
      | zero => omega
      | succ m' =>
        simp only [parseNumberGo]
        split
        · rfl
        · split
          · rfl
          · split
            · rfl
            · split
              · rfl
              · split
                · rfl
                · split
                  · -- unary negation
                    rename_i restNeg hpi htau hphi hee hinf
                    rw [ihlen restNeg.length (by subst hslen; simp) restNeg rfl n' m'
                      (by simp at hn ⊢; omega) (by simp at hm ⊢; omega)]
                  · -- non-negation
                    rename_i sOtherVar hneq
                    split
                    · rename_i spec part hfun
                      have hplen := firstMatchingFunction_length hfun
                      rw [ihlen part.length (by subst hslen; exact hplen) part rfl n' m'
                        (by omega) (by omega)]
                    · split
                      · rfl
                      · split
                        · rfl
                        · rfl
                        · rename_i opName opFunc idx hop
                          have hidx := opSplitLoop_some_lt hop
                          rw [ihlen (s.take idx).length
                              (by subst hslen; simp only [List.length_take]; omega)
                              (s.take idx) rfl n' m'
                              (by simp only [List.length_take]; omega)
                              (by simp only [List.length_take]; omega),
                            ihlen (s.drop (idx + 1)).length
                              (by subst hslen; simp only [List.length_drop]; omega)
                              (s.drop (idx + 1)) rfl n' m'
                              (by simp only [List.length_drop]; omega)
                              (by simp only [List.length_drop]; omega)]

/-- Fuel irrelevance at the wrapper level. -/
theorem parseNumberGo_irrel (ops : MathOps) (argName : String) (s : List Char) (n m : Nat)
    (hn : s.length < n) (hm : s.length < m) :
    parseNumberGo ops argName n s = parseNumberGo ops argName m s :=
  parseNumberGo_irrel_aux ops argName s.length s rfl n m hn hm

/-! ## Invariance of option identity under resolution (support for C6/C7) -/

/-- The immutable identity of a compiled option: its name, alias forms,
optionality and declared type.  Resolution only mutates value/location
fields, never these. -/
def optSig (a : ArgOption) : String × List String × Bool × String :=
  (a.name, a.forms, a.optional, a.type)

theorem optSig_addVal (a : ArgOption) (v : JSVal) : optSig (addVal a v) = optSig a := by
  simp [addVal, optSig]

theorem optSig_pavNumber {ops : MathOps} {a : ArgOption} {v : JSVal} {pe : ParsingError}
    {a' : ArgOption} {pe' : ParsingError}
    (h : pavNumber ops a v pe = .ok (a', pe')) : optSig a' = optSig a := by
  unfold pavNumber at h
  repeat' split at h
  all_goals
    first
      | (simp only [Except.ok.injEq, Prod.mk.injEq] at h
         (try rw [← h.1])
         all_goals first | rfl | exact optSig_addVal _ _)
      | simp at h

theorem optSig_pavBoolean {a : ArgOption} {v : JSVal} {pe : ParsingError}
    {a' : ArgOption} {pe' : ParsingError}
    (h : pavBoolean a v pe = .ok (a', pe')) : optSig a' = optSig a := by
  unfold pavBoolean at h
  dsimp only at h
  repeat' split at h
  all_goals
    first
      | (simp only [Except.ok.injEq, Prod.mk.injEq] at h
         (try rw [← h.1])
         all_goals first | rfl | exact optSig_addVal _ _)
      | simp at h


theorem optSig_pavBigint {a : ArgOption} {v : JSVal} {pe : ParsingError}
    {a' : ArgOption} {pe' : ParsingError}
    (h : pavBigint a v pe = .ok (a', pe')) : optSig a' = optSig a := by
  unfold pavBigint at h
  repeat' split at h
  all_goals
    first
      | (simp only [Except.ok.injEq, Prod.mk.injEq] at h
         (try rw [← h.1])
         all_goals first | rfl | exact optSig_addVal _ _)
      | simp at h


theorem optSig_pavFile {ext : TerminalEnv} {a : ArgOption} {v : JSVal} {pe : ParsingError}
    {a' : ArgOption} {pe' : ParsingError}
    (h : pavFile ext a v pe = .ok (a', pe')) : optSig a' = optSig a := by
  unfold pavFile at h
  repeat' split at h
  all_goals
    first
      | (simp only [Except.ok.injEq, Prod.mk.injEq] at h
         (try rw [← h.1])
         all_goals first | rfl | exact optSig_addVal _ _)
      | simp at h


theorem optSig_pavCommand {ext : TerminalEnv} {a : ArgOption} {v : JSVal} {pe : ParsingError}
    {a' : ArgOption} {pe' : ParsingError}
    (h : pavCommand ext a v pe = .ok (a', pe')) : optSig a' = optSig a := by
  unfold pavCommand at h
  repeat' split at h
  all_goals
    first
      | (simp only [Except.ok.injEq, Prod.mk.injEq] at h
         (try rw [← h.1])
         all_goals first | rfl | exact optSig_addVal _ _)
      | simp at h


theorem optSig_pavEnum {a : ArgOption} {v : JSVal} {pe : ParsingError}
    {a' : ArgOption} {pe' : ParsingError}
    (h : pavEnum a v pe = .ok (a', pe')) : optSig a' = optSig a := by
  unfold pavEnum at h
  repeat' split at h
  all_goals
    first
      | (simp only [Except.ok.injEq, Prod.mk.injEq] at h
         (try rw [← h.1])
         all_goals first | rfl | exact optSig_addVal _ _)
      | simp at h


theorem optSig_pavMatrix {a : ArgOption} {v : JSVal} {pe : ParsingError}
    {a' : ArgOption} {pe' : ParsingError}
    (h : pavMatrix a v pe = .ok (a', pe')) : optSig a' = optSig a := by
  unfold pavMatrix at h
  dsimp only at h
  repeat' split at h
  all_goals
    first
      | (simp only [Except.ok.injEq, Prod.mk.injEq] at h
         (try rw [← h.1])
         all_goals first | rfl | exact optSig_addVal _ _)
      | simp at h


theorem optSig_parseArgumentValue {ops : MathOps} {ext : TerminalEnv} {a : ArgOption}
    {v : JSVal} {pe : ParsingError} {a' : ArgOption} {pe' : ParsingError}
    (h : parseArgumentValue ops ext a v pe = .ok (a', pe')) : optSig a' = optSig a := by
  unfold parseArgumentValue at h
  split at h
  · exact optSig_pavNumber h
  · split at h
    · exact optSig_pavBoolean h
    · split at h
      · exact optSig_pavBigint h
      · split at h
        · exact optSig_pavFile h
        · split at h
          · exact optSig_pavCommand h
          · split at h
            · exact optSig_pavEnum h
            · split at h
              · exact optSig_pavMatrix h
              · simp only [Except.ok.injEq, Prod.mk.injEq] at h
                rw [← h.1]
                exact optSig_addVal _ _

theorem findArgGo_getElem {argName : String} :
    ∀ (l : List ArgOption) (i idx : Nat) (opt : ArgOption),
      findArgGo argName l i = some (idx, opt) → i ≤ idx ∧ l[idx - i]? = some opt := by
  intro l
  induction l with
  | nil => intro i idx opt h; simp [findArgGo] at h
  | cons a rest ih =>
    intro i idx opt h
    simp only [findArgGo] at h
    split at h
    · simp only [Option.some.injEq, Prod.mk.injEq] at h
      obtain ⟨rfl, rfl⟩ := h
      simp
    · obtain ⟨hle, hget⟩ := ih (i + 1) idx opt h
      refine ⟨by omega, ?_⟩
      have : idx - i = (idx - (i + 1)) + 1 := by omega
      rw [this]
      simpa using hget

theorem findArgOptionPair_getElem {argOptions : List ArgOption} {argName : String}
    {idx : Nat} {opt : ArgOption}
    (h : findArgOptionPair argOptions argName = some (idx, opt)) :
    argOptions[idx]? = some opt := by
  have := findArgGo_getElem argOptions 0 idx opt h
  simpa using this.2

theorem map_optSig_set {l : List ArgOption} {idx : Nat} {opt a' : ArgOption}
    (hget : l[idx]? = some opt) (hsig : optSig a' = optSig opt) :
    (l.set idx a').map optSig = l.map optSig := by
  induction l generalizing idx with
  | nil => simp at hget
  | cons hd tl ih =>
    cases idx with
    | zero =>
      simp only [List.getElem?_cons_zero, Option.some.injEq] at hget
      subst hget
      simp [List.set, hsig]
    | succ m =>
      simp only [List.getElem?_cons_succ] at hget
      simp [List.set, ih hget]

theorem argMatches_of_sig {a b : ArgOption} (h : optSig a = optSig b) (n : String) :
    argMatches a n = argMatches b n := by
  simp only [optSig, Prod.mk.injEq] at h
  simp [argMatches, h.1, h.2.1]

theorem findArgGo_sig_congr (argName : String) :
    ∀ (l l' : List ArgOption) (i : Nat), l.map optSig = l'.map optSig →
      ((findArgGo argName l i).map (fun p => (p.1, optSig p.2))) =
        ((findArgGo argName l' i).map (fun p => (p.1, optSig p.2))) := by
  intro l
  induction l with
  | nil =>
    intro l' i h
    cases l' with
    | nil => rfl
    | cons b tl' => simp at h
  | cons a tl ih =>
    intro l' i h
    cases l' with
    | nil => simp at h
    | cons b tl' =>
      simp only [List.map_cons, List.cons.injEq] at h
      obtain ⟨hab, htl⟩ := h
      simp only [findArgGo, argMatches_of_sig hab argName]
      split
      · simp [hab]
      · exact ih tl' (i + 1) htl

/-- Resolvability of a flag name to an optional option (what must hold for
every direct flag of a successful named pass). -/
def ResolvesOptional (argOptions : List ArgOption) (name : String) : Prop :=
  ∃ idx opt, findArgOptionPair argOptions name = some (idx, opt) ∧ opt.optional = true

/-- Resolvability of a clustered character to a boolean-typed option. -/
def ResolvesBoolean (argOptions : List ArgOption) (c : Char) : Prop :=
  ∃ idx opt, findArgOptionPair argOptions (String.mk [c]) = some (idx, opt) ∧ opt.type = "boolean"

theorem resolvesOptional_congr {l l' : List ArgOption} (h : l.map optSig = l'.map optSig)
    (name : String) : ResolvesOptional l name ↔ ResolvesOptional l' name := by
  have hc := findArgGo_sig_congr name l l' 0 h
  unfold ResolvesOptional findArgOptionPair
  constructor
  · rintro ⟨idx, opt, hfind, hopt⟩
    rw [hfind] at hc
    cases hfind' : findArgGo name l' 0 with
    | none => rw [hfind'] at hc; simp at hc
    | some p =>
      rw [hfind'] at hc
      simp only [Option.map_some', Option.some.injEq, Prod.mk.injEq] at hc
      refine ⟨p.1, p.2, by simp [hfind'], ?_⟩
      have : optSig opt = optSig p.2 := hc.2
      simp only [optSig, Prod.mk.injEq] at this
      rw [← this.2.2.1, hopt]
  · rintro ⟨idx, opt, hfind, hopt⟩
    rw [hfind] at hc
    cases hfind' : findArgGo name l 0 with
    | none => rw [hfind'] at hc; simp at hc
    | some p =>
      rw [hfind'] at hc
      simp only [Option.map_some', Option.some.injEq, Prod.mk.injEq] at hc
      refine ⟨p.1, p.2, by simp [hfind'], ?_⟩
      have : optSig p.2 = optSig opt := hc.2
      simp only [optSig, Prod.mk.injEq] at this
      rw [this.2.2.1, hopt]

theorem resolvesBoolean_congr {l l' : List ArgOption} (h : l.map optSig = l'.map optSig)
    (c : Char) : ResolvesBoolean l c ↔ ResolvesBoolean l' c := by
  have hc := findArgGo_sig_congr (String.mk [c]) l l' 0 h
  unfold ResolvesBoolean findArgOptionPair
  constructor
  · rintro ⟨idx, opt, hfind, hopt⟩
    rw [hfind] at hc
    cases hfind' : findArgGo (String.mk [c]) l' 0 with
    | none => rw [hfind'] at hc; simp at hc
    | some p =>
      rw [hfind'] at hc
      simp only [Option.map_some', Option.some.injEq, Prod.mk.injEq] at hc
      refine ⟨p.1, p.2, by simp [hfind'], ?_⟩
      have : optSig opt = optSig p.2 := hc.2
      simp only [optSig, Prod.mk.injEq] at this
      rw [← this.2.2.2, hopt]
  · rintro ⟨idx, opt, hfind, hopt⟩
    rw [hfind] at hc
    cases hfind' : findArgGo (String.mk [c]) l 0 with
    | none => rw [hfind'] at hc; simp at hc
    | some p =>
      rw [hfind'] at hc
      simp only [Option.map_some', Option.some.injEq, Prod.mk.injEq] at hc
      refine ⟨p.1, p.2, by simp [hfind'], ?_⟩
      have : optSig p.2 = optSig opt := hc.2
      simp only [optSig, Prod.mk.injEq] at this
      rw [this.2.2.2, hopt]

theorem handleArg_sig {ops : MathOps} {ext : TerminalEnv} {argOptions : List ArgOption}
    {pe : ParsingError} {i : Nat} {nt : Option String} {name : String}
    {argOptions' : List ArgOption} {pe' : ParsingError} {dn : Bool}
    (h : handleArg ops ext argOptions pe i nt name = .ok (argOptions', pe', dn)) :
    argOptions'.map optSig = argOptions.map optSig := by
  unfold handleArg at h
  cases hfind : findArgOptionPair argOptions name with
  | none =>
    rw [hfind] at h
    simp only [Except.ok.injEq, Prod.mk.injEq] at h
    rw [← h.1]
  | some p =>
    obtain ⟨idx, argOption⟩ := p
    rw [hfind] at h
    dsimp only at h
    have hget := findArgOptionPair_getElem hfind
    split at h
    · simp only [Except.ok.injEq, Prod.mk.injEq] at h
      rw [← h.1]
      exact map_optSig_set hget rfl
    · split at h
      · split at h
        · exact absurd h (by simp)
        · rename_i a2 pe2 hpav
          simp only [Except.ok.injEq, Prod.mk.injEq] at h
          rw [← h.1]
          exact map_optSig_set hget ((optSig_parseArgumentValue hpav).trans rfl)
      · split at h
        · split at h
          · exact absurd h (by simp)
          · rename_i a2 pe2 hpav
            simp only [Except.ok.injEq, Prod.mk.injEq] at h
            rw [← h.1]
            exact map_optSig_set hget ((optSig_parseArgumentValue hpav).trans rfl)
        · simp only [Except.ok.injEq, Prod.mk.injEq] at h
          rw [← h.1]

/-- A successful (`message`-free) `handleArg` resolution implies the flag
matched an optional option: the unknown-property and not-optional branches
both populate the error message unconditionally. -/
theorem handleArg_clean {ops : MathOps} {ext : TerminalEnv} {argOptions : List ArgOption}
    {pe : ParsingError} {i : Nat} {nt : Option String} {name : String}
    {argOptions' : List ArgOption} {pe' : ParsingError} {dn : Bool}
    (h : handleArg ops ext argOptions pe i nt name = .ok (argOptions', pe', dn))
    (hmsg : pe'.message = none) :
    ∃ idx opt, findArgOptionPair argOptions name = some (idx, opt) ∧ opt.optional = true := by
  unfold handleArg at h
  cases hfind : findArgOptionPair argOptions name with
  | none =>
    rw [hfind] at h
    simp only [Except.ok.injEq, Prod.mk.injEq] at h
    obtain ⟨-, hpe, -⟩ := h
    rw [← hpe] at hmsg
    simp at hmsg
  | some p =>
    obtain ⟨idx, argOption⟩ := p
    rw [hfind] at h
    dsimp only at h
    split at h
    · rename_i hcond
      simp only [Except.ok.injEq, Prod.mk.injEq] at h
      obtain ⟨-, hpe, -⟩ := h
      rw [← hpe] at hmsg
      simp at hmsg
    · rename_i hcond
      exact ⟨idx, argOption, rfl, by simpa using hcond⟩

/-- A clustered flag token that the named pass processes to completion
(no thrown exception, no `return null`) had every non-dash, non-terminal
character resolve to a boolean-typed option; moreover cluster processing
preserves option identities. -/
theorem clusterGo_success {ops : MathOps} {ext : TerminalEnv} {lastIdx i : Nat}
    {nt : Option String} :
    ∀ (pairs : List (Nat × Char)) (argOptions : List ArgOption) (pe : ParsingError) (dn : Bool)
      (argOptions' : List ArgOption) (pe' : ParsingError) (dn' : Bool),
      clusterGo ops ext lastIdx i nt pairs argOptions pe dn = .ok (argOptions', pe', dn', false) →
      (∀ j c, (j, c) ∈ pairs → j ≠ lastIdx → c ≠ '-' → ResolvesBoolean argOptions c) ∧
      argOptions'.map optSig = argOptions.map optSig := by
  intro pairs
  induction pairs with
  | nil =>
    intro argOptions pe dn argOptions' pe' dn' h
    simp only [clusterGo, Except.ok.injEq, Prod.mk.injEq] at h
    obtain ⟨h1, -⟩ := h
    exact ⟨by simp, by rw [h1]⟩
  | cons hd rest ih =>
    obtain ⟨j, c⟩ := hd
    intro argOptions pe dn argOptions' pe' dn' h
    simp only [clusterGo] at h
    split at h
    · -- c = '-': skipped entirely
      rename_i hdash
      obtain ⟨hfacts, hsig⟩ := ih _ _ _ _ _ _ h
      refine ⟨?_, hsig⟩
      intro j' c' hmem hlast hdashne
      rcases List.mem_cons.mp hmem with heq | hmem'
      · exact absurd (by rw [Prod.mk.injEq] at heq; rw [heq.2]; exact hdash) hdashne
      · exact hfacts j' c' hmem' hlast hdashne
    · rename_i hdash
      cases hfind : findArgOptionPair argOptions (String.mk [c]) with
      | some p =>
        obtain ⟨idx, argOption⟩ := p
        rw [hfind] at h
        dsimp only at h
        have hget := findArgOptionPair_getElem hfind
        split at h
        · exact absurd h (by simp)
        · rename_i a2 pe2 hpav
          have hseta : (argOptions.set idx a2).map optSig = argOptions.map optSig :=
            map_optSig_set hget ((optSig_parseArgumentValue hpav).trans rfl)
          split at h
          · -- terminal position
            rename_i hjlast
            split at h
            · exact absurd h (by simp)
            · rename_i o3 p3 dn3 hha
              split at h
              · simp only [Except.ok.injEq, Prod.mk.injEq] at h
                exact absurd h.2.2.2 (by simp)
              · obtain ⟨hfacts, hsig⟩ := ih _ _ _ _ _ _ h
                have hsig3 := handleArg_sig hha
                refine ⟨?_, by rw [hsig, hsig3, hseta]⟩
                intro j' c' hmem hlast hdashne
                rcases List.mem_cons.mp hmem with heq | hmem'
                · exact absurd (by rw [Prod.mk.injEq] at heq; rw [heq.1]; exact hjlast) hlast
                · have := hfacts j' c' hmem' hlast hdashne
                  exact (resolvesBoolean_congr (by rw [hsig3, hseta]) c').mp this
          · -- non-terminal position
            rename_i hjlast
            split at h
            · -- a2.type ≠ "boolean": unconditional message, `return null` path
              simp at h
            · rename_i htb
              have htype : a2.type = "boolean" := by simpa using htb
              split at h
              · -- pe2 already carried a message: `return null`, contradicting `false`
                simp only [Except.ok.injEq, Prod.mk.injEq] at h
                exact absurd h.2.2.2 (by simp)
              · obtain ⟨hfacts, hsig⟩ := ih _ _ _ _ _ _ h
                have htypeOrig : argOption.type = "boolean" := by
                  have := (optSig_parseArgumentValue hpav).trans (rfl :
                    optSig { argOption with tokenIndex := some i } = optSig argOption)
                  simp only [optSig, Prod.mk.injEq] at this
                  rw [← this.2.2.2, htype]
                refine ⟨?_, by rw [hsig, hseta]⟩
                intro j' c' hmem hlast hdashne
                rcases List.mem_cons.mp hmem with heq | hmem'
                · rw [Prod.mk.injEq] at heq
                  rw [heq.2]
                  exact ⟨idx, argOption, hfind, htypeOrig⟩
                · have := hfacts j' c' hmem' hlast hdashne
                  exact (resolvesBoolean_congr hseta c').mp this
      | none =>
        rw [hfind] at h
        dsimp only at h
        split at h
        · -- terminal position
          rename_i hjlast
          split at h
          · exact absurd h (by simp)
          · rename_i o3 p3 dn3 hha
            split at h
            · simp only [Except.ok.injEq, Prod.mk.injEq] at h
              exact absurd h.2.2.2 (by simp)
            · obtain ⟨hfacts, hsig⟩ := ih _ _ _ _ _ _ h
              have hsig3 := handleArg_sig hha
              refine ⟨?_, by rw [hsig, hsig3]⟩
              intro j' c' hmem hlast hdashne
              rcases List.mem_cons.mp hmem with heq | hmem'
              · exact absurd (by rw [Prod.mk.injEq] at heq; rw [heq.1]; exact hjlast) hlast
              · have := hfacts j' c' hmem' hlast hdashne
                exact (resolvesBoolean_congr hsig3 c').mp this
        · -- non-terminal unknown character: unconditional `return null`
          simp only [Except.ok.injEq, Prod.mk.injEq] at h
          exact absurd h.2.2.2 (by simp)

/-- The flag name a token contributes through the two *direct* flag shapes
(`--long`, or single-dash of total length 2); `none` for non-flag tokens
and for clustered tokens. -/
def directFlagName (t : List Char) : Option String :=
  if isFlagToken t then
    match t with
    | '-' :: '-' :: rest => some (String.mk rest)
    | _ => if t.length = 2 then some (String.mk (t.drop 1)) else none
  else none

/-- Whether a token takes the clustered short-flag branch of
`parseNamedArgs`: flag-shaped, single dash, length ≥ 3. -/
def isClusterFlag (t : List Char) : Bool :=
  isFlagToken t &&
  (match t with
   | '-' :: '-' :: _ => false
   | _ => decide (t.length ≠ 2))

/-- Facts extractable from a flag token whose branch completed without a
thrown exception, without the cluster `return null`, and whose resulting
error message is empty: a direct flag resolved to an optional option,
cluster characters in non-dash non-terminal positions resolved to boolean
options, and option identities are preserved. -/
theorem namedFlagBranch_facts {ops : MathOps} {ext : TerminalEnv} {argOptions : List ArgOption}
    {pe : ParsingError} {i : Nat} {nt : Option String} {t : List Char}
    {o2 : List ArgOption} {p2 : ParsingError} {dn2 : Bool}
    (hflag : isFlagToken t = true)
    (heq : namedFlagBranch ops ext argOptions pe i nt t = .ok (o2, p2, dn2, false))
    (hclean : p2.message = none) :
    (∀ name, directFlagName t = some name → ResolvesOptional argOptions name) ∧
    (isClusterFlag t = true →
      ∀ j c, (j, c) ∈ t.enum → j ≠ t.length - 1 → c ≠ '-' → ResolvesBoolean argOptions c) ∧
    o2.map optSig = argOptions.map optSig := by
  unfold namedFlagBranch at heq
  split at heq
  · -- `--long`
    rename_i restName
    split at heq
    · simp at heq
    · rename_i o3 p3 dn3 hha
      simp only [Except.ok.injEq, Prod.mk.injEq] at heq
      obtain ⟨rfl, rfl, rfl, -⟩ := heq
      refine ⟨?_, ?_, handleArg_sig hha⟩
      · intro name hname
        unfold directFlagName at hname
        rw [if_pos hflag] at hname
        have hname2 : some (String.mk restName) = some name := hname
        simp only [Option.some.injEq] at hname2
        obtain ⟨idx, opt, hfind, hopt⟩ := handleArg_clean hha hclean
        rw [hname2] at hfind
        exact ⟨idx, opt, hfind, hopt⟩
      · intro hcf
        simp [isClusterFlag] at hcf
  · -- single dash shapes
    rename_i hnotdd
    split at heq
    · -- `-x` (length 2)
      rename_i hlen2
      split at heq
      · simp at heq
      · rename_i o3 p3 dn3 hha
        simp only [Except.ok.injEq, Prod.mk.injEq] at heq
        obtain ⟨rfl, rfl, rfl, -⟩ := heq
        refine ⟨?_, ?_, handleArg_sig hha⟩
        · intro name hname
          unfold directFlagName at hname
          rw [if_pos hflag] at hname
          split at hname
          · rename_i rest2
            exact absurd rfl (hnotdd rest2)
          · rw [if_pos hlen2] at hname
            simp only [Option.some.injEq] at hname
            obtain ⟨idx, opt, hfind, hopt⟩ := handleArg_clean hha hclean
            rw [hname] at hfind
            exact ⟨idx, opt, hfind, hopt⟩
        · intro hcf
          simp only [isClusterFlag, Bool.and_eq_true] at hcf
          have hcf2 := hcf.2
          first
            | exact absurd hlen2 (by simpa using hcf2)
            | (split at hcf2
               · simp at hcf2
               · exact absurd hlen2 (by simpa using hcf2))
    · -- cluster
      rename_i hlenne
      obtain ⟨hclf, hclsig⟩ := clusterGo_success _ _ _ _ _ _ _ heq
      refine ⟨?_, ?_, hclsig⟩
      · intro name hname
        unfold directFlagName at hname
        rw [if_pos hflag] at hname
        split at hname
        · rename_i rest2
          exact absurd rfl (hnotdd rest2)
        · rw [if_neg hlenne] at hname
          simp at hname
      · intro hcf j c hjc hjlast hdash
        exact hclf j c hjc hjlast hdash

/-- Master analysis of a *fully successful* named pass (the source
returned `deleteIndeces`, not the `null` of an error): every direct flag
token resolved to an optional option, every non-dash non-terminal
character of a clustered token resolved to a boolean option, and option
identities are preserved. -/
theorem parseNamedArgsGo_success {ops : MathOps} {ext : TerminalEnv} {tokens : List String} :
    ∀ (pairs : List (Nat × String)) (argOptions : List ArgOption) (pe : ParsingError)
      (del : List Nat) (del' : List Nat) (argOptions' : List ArgOption) (pe' : ParsingError),
      parseNamedArgsGo ops ext tokens pairs argOptions pe del = .ok (some del', argOptions', pe') →
      ((∀ i t name, (i, t) ∈ pairs → directFlagName t.data = some name →
          ResolvesOptional argOptions name) ∧
       (∀ i t, (i, t) ∈ pairs → isClusterFlag t.data = true →
          ∀ j c, (j, c) ∈ t.data.enum → j ≠ t.data.length - 1 → c ≠ '-' →
            ResolvesBoolean argOptions c) ∧
       argOptions'.map optSig = argOptions.map optSig) := by
  intro pairs
  induction pairs with
  | nil =>
    intro argOptions pe del del' argOptions' pe' h
    simp only [parseNamedArgsGo, Except.ok.injEq, Prod.mk.injEq] at h
    exact ⟨by simp, by simp, by rw [h.2.1]⟩
  | cons hd rest ih =>
    obtain ⟨i, currToken⟩ := hd
    intro argOptions pe del del' argOptions' pe' h
    simp only [parseNamedArgsGo] at h
    split at h
    · -- flag-shaped token
      rename_i hflag
      split at h
      · exact absurd h (by simp)
      · rename_i o2 p2 dn2 aborted heq
        cases aborted with
        | true => simp at h
        | false =>
          try dsimp only at h
          cases hclean : p2.message with
          | some m => rw [hclean] at h; simp at h
          | none =>
            rw [hclean] at h
            simp only [Option.isSome_none, Bool.false_eq_true, if_false] at h
            obtain ⟨hdirect, hcluster, hsig⟩ := ih _ _ _ _ _ _ h
            obtain ⟨hbdirect, hbcluster, hbsig⟩ := namedFlagBranch_facts hflag heq hclean
            refine ⟨?_, ?_, by rw [hsig, hbsig]⟩
            · intro i' t' name' hmem hname
              rcases List.mem_cons.mp hmem with hpeq | hmem'
              · rw [Prod.mk.injEq] at hpeq
                obtain ⟨-, rfl⟩ := hpeq
                exact hbdirect name' hname
              · exact (resolvesOptional_congr hbsig name').mp
                  (hdirect i' t' name' hmem' hname)
            · intro i' t' hmem hcf j c hjc hjlast hdash
              rcases List.mem_cons.mp hmem with hpeq | hmem'
              · rw [Prod.mk.injEq] at hpeq
                obtain ⟨-, rfl⟩ := hpeq
                exact hbcluster hcf j c hjc hjlast hdash
              · exact (resolvesBoolean_congr hbsig c).mp
                  (hcluster i' t' hmem' hcf j c hjc hjlast hdash)
    · -- non-flag token
      rename_i hflag
      split at h
      · simp at h
      · obtain ⟨hdirect, hcluster, hsig⟩ := ih _ _ _ _ _ _ h
        refine ⟨?_, ?_, hsig⟩
        · intro i' t' name' hmem hname
          rcases List.mem_cons.mp hmem with hpeq | hmem'
          · rw [Prod.mk.injEq] at hpeq
            obtain ⟨-, rfl⟩ := hpeq
            unfold directFlagName at hname
            rw [if_neg (by simpa using hflag)] at hname
            simp at hname
          · exact hdirect i' t' name' hmem' hname
        · intro i' t' hmem hcf j c hjc hjlast hdash
          rcases List.mem_cons.mp hmem with hpeq | hmem'
          · rw [Prod.mk.injEq] at hpeq
            obtain ⟨-, rfl⟩ := hpeq
            simp only [isClusterFlag, Bool.and_eq_true] at hcf
            exact absurd hcf.1 (by simpa using hflag)
          · exact hcluster i' t' hmem' hcf j c hjc hjlast hdash

theorem getElem?_mem_enumFrom {α : Type} :
    ∀ (l : List α) (n j : Nat) (a : α), l[j]? = some a → (n + j, a) ∈ l.enumFrom n := by
  intro l
  induction l with
  | nil => intro n j a h; simp at h
  | cons hd tl ih =>
    intro n j a h
    cases j with
    | zero =>
      simp only [List.getElem?_cons_zero, Option.some.injEq] at h
      subst h
      simp [List.enumFrom]
    | succ m =>
      simp only [List.getElem?_cons_succ] at h
      have := ih (n + 1) m a h
      simp only [List.enumFrom, List.mem_cons]
      right
      have harith : n + (m + 1) = n + 1 + m := by omega
      rw [harith]
      exact this

theorem getElem?_mem_enum {α : Type} (l : List α) (j : Nat) (a : α)
    (h : l[j]? = some a) : (j, a) ∈ l.enum := by
  have := getElem?_mem_enumFrom l 0 j a h
  simpa [List.enum] using this

/-- `parseNamedArgs`-level corollary of the master analysis: a fully
successful named pass implies every direct flag token in the token list
resolved to an optional option. -/
theorem parseNamedArgs_success_direct {ops : MathOps} {ext : TerminalEnv}
    {tokens : List String} {argOptions : List ArgOption} {pe : ParsingError}
    {del' : List Nat} {argOptions' : List ArgOption} {pe' : ParsingError}
    (h : parseNamedArgs ops ext tokens argOptions pe = .ok (some del', argOptions', pe'))
    {i : Nat} {t : String} {name : String}
    (hget : tokens[i]? = some t) (hname : directFlagName t.data = some name) :
    ResolvesOptional argOptions name := by
  have hmem := getElem?_mem_enum tokens i t hget
  exact (parseNamedArgsGo_success _ _ _ _ _ _ _ h).1 i t name hmem hname

/-- `parseNamedArgs`-level corollary of the master analysis: a fully
successful named pass implies every non-dash non-terminal character of a
clustered flag token resolved to a boolean-typed option. -/
theorem parseNamedArgs_success_cluster {ops : MathOps} {ext : TerminalEnv}
    {tokens : List String} {argOptions : List ArgOption} {pe : ParsingError}
    {del' : List Nat} {argOptions' : List ArgOption} {pe' : ParsingError}
    (h : parseNamedArgs ops ext tokens argOptions pe = .ok (some del', argOptions', pe'))
    {i : Nat} {t : String} (hget : tokens[i]? = some t)
    (hcluster : isClusterFlag t.data = true)
    {j : Nat} {c : Char} (hjc : t.data[j]? = some c)
    (hjlast : j ≠ t.data.length - 1) (hdash : c ≠ '-') :
    ResolvesBoolean argOptions c := by
  have hmem := getElem?_mem_enum tokens i t hget
  have hjcmem := getElem?_mem_enum t.data j c hjc
  exact (parseNamedArgsGo_success _ _ _ _ _ _ _ h).2.1 i t hmem hcluster j c hjcmem hjlast hdash

/-- `handleArg` on a flag resolving to a non-optional option always
produces the dedicated parse error at that token, unconditionally. -/
theorem handleArg_not_optional {ops : MathOps} {ext : TerminalEnv}
    {argOptions : List ArgOption} {pe : ParsingError} {i : Nat} {nt : Option String}
    {name : String} {idx : Nat} {opt : ArgOption}
    (hfind : findArgOptionPair argOptions name = some (idx, opt))
    (hopt : opt.optional = false) :
    handleArg ops ext argOptions pe i nt name =
      .ok (argOptions.set idx { opt with tokenIndex := some i },
        { pe with
          message := some ("Property \"" ++ opt.name ++ "\" is not optional, must be passed directly")
          tokenIndex := some i
          tokenSpan := 1 }, true) := by
  unfold handleArg
  rw [hfind]
  dsimp only
  rw [if_pos (by simp [hopt])]

/-- `parseArgumentValue` on a boolean-typed option with the planted `true`
always succeeds via `addVal` and leaves the `parsingError` untouched. -/
theorem parseArgumentValue_boolean_true (ops : MathOps) (ext : TerminalEnv)
    (a : ArgOption) (pe : ParsingError) (htype : a.type = "boolean") :
    parseArgumentValue ops ext a (.bool true) pe = .ok (addVal a (.bool true), pe) := by
  unfold parseArgumentValue
  rw [if_neg (by rw [htype]; decide), if_pos htype]
  unfold pavBoolean
  rw [if_neg (by simp)]
  rfl

/-- `handleArg` on a flag resolving to an optional boolean-typed option
auto-sets it to `true` and reports `deleteNext = false`: the following
token is never consumed. -/
theorem handleArg_boolean {ops : MathOps} {ext : TerminalEnv}
    {argOptions : List ArgOption} {pe : ParsingError} {i : Nat} {nt : Option String}
    {name : String} {idx : Nat} {opt : ArgOption}
    (hfind : findArgOptionPair argOptions name = some (idx, opt))
    (hopt : opt.optional = true) (htype : opt.type = "boolean") :
    handleArg ops ext argOptions pe i nt name =
      .ok (argOptions.set idx (addVal { opt with tokenIndex := some i } (.bool true)), pe, false) := by
  unfold handleArg
  rw [hfind]
  dsimp only
  rw [if_neg (by simp [hopt]), if_pos (by simpa using htype),
    parseArgumentValue_boolean_true ops ext _ pe (by simpa using htype)]

/-- One step of the cluster loop at a non-terminal, non-dash character
that resolves to no option: the pass records `Unexpected property` at the
current token and `return null`s immediately. -/
theorem clusterGo_unexpected {ops : MathOps} {ext : TerminalEnv} {lastIdx i : Nat}
    {nt : Option String} {j : Nat} {c : Char} {rest : List (Nat × Char)}
    {argOptions : List ArgOption} {pe : ParsingError} {dn : Bool}
    (hdash : c ≠ '-') (hjlast : j ≠ lastIdx)
    (hfind : findArgOptionPair argOptions (String.mk [c]) = none) :
    clusterGo ops ext lastIdx i nt ((j, c) :: rest) argOptions pe dn =
      .ok (argOptions,
        { pe with
          message := some ("Unexpected property \"" ++ String.mk [c] ++ "\"")
          tokenIndex := some i }, dn, true) := by
  simp only [clusterGo]
  rw [if_neg hdash, hfind]
  dsimp only
  rw [if_neg hjlast]

/-! ## Concrete fixtures for the verified properties -/

/-- The round-trip command of the spec: schema `["a:n:1~100", "?b:b"]`. -/
def cmdRoundTrip : CommandSpec :=
  { name := "cmd", args := .list ["a:n:1~100", "?b:b"], defaultValues := [], rawArgMode := false }

/-- Schema `["a:n"]`. -/
def cmdSingleNum : CommandSpec :=
  { name := "cmd", args := .list ["a:n"], defaultValues := [], rawArgMode := false }

/-- Schema `["?n:n", "a:s"]`: an optional number flag plus a required
string. -/
def cmdOptNumReqStr : CommandSpec :=
  { name := "cmd", args := .list ["?n:n", "a:s"], defaultValues := [], rawArgMode := false }

/-- Schema `["?n:n", "?b:b"]`. -/
def cmdOptNumOptBool : CommandSpec :=
  { name := "cmd", args := .list ["?n:n", "?b:b"], defaultValues := [], rawArgMode := false }

/-- The compiled descriptor of the spec string `"?b:b"`. -/
def bOptRec : ArgOption :=
  { name := "b", type := "boolean", typeName := "boolean", stringType := none, optional := true,
    min := none, max := none, expanding := false, numtype := none, enumOptions := none,
    defaultVal := none, forms := ["b"], isHelp := false, description := "", tokenIndex := none,
    tokenSpan := 0, value := none, isManuallySetValue := false, hasExpanded := false }

/-- The compiled descriptor of the spec string `"a:n"`. -/
def aReqRec : ArgOption :=
  { name := "a", type := "number", typeName := "number", stringType := none, optional := false,
    min := none, max := none, expanding := false, numtype := none, enumOptions := none,
    defaultVal := none, forms := ["a"], isHelp := false, description := "", tokenIndex := none,
    tokenSpan := 0, value := none, isManuallySetValue := false, hasExpanded := false }

/-- The compiled descriptor of the spec string `"?n:n"`. -/
def nOptRec : ArgOption :=
  { name := "n", type := "number", typeName := "number", stringType := none, optional := true,
    min := none, max := none, expanding := false, numtype := none, enumOptions := none,
    defaultVal := none, forms := ["n"], isHelp := false, description := "", tokenIndex := none,
    tokenSpan := 0, value := none, isManuallySetValue := false, hasExpanded := false }

/-- The compiled descriptor of the spec string `"a:s"`. -/
def aStrRec : ArgOption :=
  { name := "a", type := "string", typeName := "string", stringType := none, optional := false,
    min := none, max := none, expanding := false, numtype := none, enumOptions := none,
    defaultVal := none, forms := ["a"], isHelp := false, description := "", tokenIndex := none,
    tokenSpan := 0, value := none, isManuallySetValue := false, hasExpanded := false }

example : (parseArgOptions "?n:n") = .ok nOptRec := by decide

example : (parseArgOptions "a:s") = .ok aStrRec := by decide

/-- The type codes `parseArgOptions` accepts. -/
def knownTypeCodes : List String := ["n", "i", "bn", "b", "s", "f", "c", "sm", "m", "e", "t"]

/-- The type code a schema spec string declares, when it declares one:
strip the `?` and `*` prefixes exactly as `parseArgOptions` does, then take
the segment after the first `:`. -/
def schemaTypeCode (argString : String) : Option String :=
  let name2 := (stripSchemaPrefixes argString.data).2.2
  if name2.contains ':' then
    match splitOnChar ':' name2 with
    | _ :: p1 :: _ => some (String.mk p1)
    | _ => none
  else none

example : (parseArgOptions "?b:b") = .ok bOptRec := by decide

example : (parseArgOptions "a:n") = .ok aReqRec := by decide

example : schemaTypeCode "?a:n:1~100" = some "n" ∧ schemaTypeCode "a" = none ∧
    schemaTypeCode "?*x:zz" = some "zz" := by decide

/-! ## The verified claims -/

/-- C5: the tokenizer is a pure function of the input string with
`tokenize('a "b c" d') = ["a", "b c", "d"]`, `tokenize('') = []`, and an
unterminated quote (`tokenize('a "b')`) does not raise an error and still
produces a best-effort final token from the remaining characters. -/
theorem c5_tokenizer_examples :
    tokenize "a \"b c\" d" = ["a", "b c", "d"] ∧
    tokenize "" = [] ∧
    tokenize "a \"b" = ["a", "b"] := by
  refine ⟨by decide, by decide, by decide⟩

/-- C10: `parseArguments` treats the token at index 0 as the command name
and never assigns it positionally — index 0 is always added to the ignore
list, so positional values come from index 1 onward: with schema
`["a:n"]`, resolving `["50"]` yields a missing-argument error for `a`,
while resolving `["cmd", "50"]` assigns `a = 50` from token index 1. -/
theorem c10_command_token_ignored :
    ((parseArguments mathOps0 ext0 ["50"] cmdSingleNum).map
      (fun r => (r.2.message, r.1.map (fun o => (o.name, o.value))))) =
      .ok (some "argument \"a\" (number) is missing", [("a", none)]) ∧
    ((parseArguments mathOps0 ext0 ["cmd", "50"] cmdSingleNum).map
      (fun r => (r.2.message, r.1.map (fun o => (o.name, o.value, o.tokenIndex))))) =
      .ok (none, [("a", some (.num 50), some 1)]) := by
  refine ⟨by decide, by decide⟩

/-- C1 counterexample: with schema `["a:n:1~100", "?b:b"]`, resolving the
token list `["50"]` does *not* succeed — token index 0 is reserved for the
command name, so the resolver reports `a` as missing and assigns nothing,
refuting the claim that `a = 50` with an empty parsing error. -/
theorem c1_roundtrip_counterexample :
    (parseArguments mathOps0 ext0 ["50"] cmdRoundTrip).map
      (fun r => (r.2.message, r.1.map (fun o => (o.name, o.value)))) =
      .ok (some "argument \"a\" (number) is missing", [("a", none), ("b", none)]) := by
  decide

/-- C1 (amended): with schema `["a:n:1~100", "?b:b"]` and the command-name
token prepended, resolving `["cmd", "50"]` succeeds (empty parsing error)
with `a = 50` and `b` unset/default, and resolving `["cmd", "150"]` fails
the range check on `a` (`Number must be at most 100`) at token index 1. -/
theorem c1_roundtrip_amended :
    ((parseArguments mathOps0 ext0 ["cmd", "50"] cmdRoundTrip).map
      (fun r => (r.2.message, r.1.map (fun o => (o.name, o.value, o.isManuallySetValue))))) =
      .ok (none, [("a", some (.num 50), true), ("b", none, false)]) ∧
    ((parseArguments mathOps0 ext0 ["cmd", "150"] cmdRoundTrip).map
      (fun r => (r.2.message, r.2.tokenIndex, r.1.map (fun o => (o.name, o.value))))) =
      .ok (some "At property \"a\": Number must be at most 100", some 1,
        [("a", none), ("b", none)]) := by
  refine ⟨by with_unfolding_all decide, by with_unfolding_all decide⟩

/-- C3: a flag resolving to an optional boolean-typed option is auto-set
to `true` and reports `deleteNext = false`, so it never consumes the
following token (first conjunct, for every option list and token
position); concretely, with schema `["a:n:1~100", "?b:b"]` and tokens
`["-b", "50"]`, resolution succeeds with `b = true` (from token 0) and
`"50"` left undeleted and assigned positionally to `a` (token index 1). -/
theorem c3_boolean_flag_no_consume :
    (∀ (ops : MathOps) (ext : TerminalEnv) (argOptions : List ArgOption) (pe : ParsingError)
       (i : Nat) (nt : Option String) (name : String) (idx : Nat) (opt : ArgOption),
       findArgOptionPair argOptions name = some (idx, opt) → opt.optional = true →
       opt.type = "boolean" →
       handleArg ops ext argOptions pe i nt name =
         .ok (argOptions.set idx (addVal { opt with tokenIndex := some i } (.bool true)),
           pe, false)) ∧
    ((parseArguments mathOps0 ext0 ["-b", "50"] cmdRoundTrip).map
      (fun r => (r.2.message, r.1.map (fun o => (o.name, o.value, o.tokenIndex))))) =
      .ok (none, [("a", some (.num 50), some 1), ("b", some (.bool true), some 0)]) :=
  ⟨fun _ _ _ _ _ _ _ _ _ hfind hopt htype => handleArg_boolean hfind hopt htype,
    by with_unfolding_all decide⟩

/-- Witness for C3: the boolean-flag lemma applied to the compiled
`"?b:b"` descriptor at token position 0 with `"50"` as the vulnerable next
token. -/
theorem c3_boolean_flag_no_consume_witness :
    findArgOptionPair [bOptRec] "b" = some (0, bOptRec) ∧
    bOptRec.optional = true ∧ bOptRec.type = "boolean" ∧
    handleArg mathOps0 ext0 [bOptRec] ParsingError.init 0 (some "50") "b" =
      .ok ([bOptRec].set 0 (addVal { bOptRec with tokenIndex := some 0 } (.bool true)),
        ParsingError.init, false) :=
  ⟨by decide, by decide, by decide,
    c3_boolean_flag_no_consume.1 mathOps0 ext0 [bOptRec] ParsingError.init 0 (some "50") "b" 0
      bOptRec (by decide) (by decide) (by decide)⟩

/-- C2: the numeric evaluator scans operators in the fixed order
`+ - * / ^` (the `operators` table), each pass splitting at the **last**
depth-0 occurrence of its operator (the scan's result is a top-level
occurrence and an upper bound of all top-level occurrences); consequently
`"2+3+4"` splits at index 3 into `"2+3"` and `"4"` and evaluates to `9`,
and `"8/4/2"` evaluates to `1` (i.e. `(8/4)/2`), not `4`. -/
theorem c2_antiprecedence_last_split :
    operators.map Prod.fst = ['+', '-', '*', '/', '^'] ∧
    (∀ (argName : String) (opName : Char) (s : List Char) (k : Nat),
      opName ≠ '(' → opName ≠ ')' → opScan argName opName s = .ok (some k) →
      IsTopLevelOcc opName s k ∧ ∀ j, IsTopLevelOcc opName s j → j ≤ k) ∧
    opScan "a" '+' ("2+3+4".data) = .ok (some 3) ∧
    ("2+3+4".data.take 3 = "2+3".data ∧ "2+3+4".data.drop 4 = "4".data) ∧
    parseNumberStr mathOps0 "a" "2+3+4" = .ok 9 ∧
    parseNumberStr mathOps0 "a" "8/4/2" = .ok 1 := by
  refine ⟨rfl, fun argName opName s k h1 h2 h3 => opScan_last_top h1 h2 h3,
    by decide, ⟨by decide, by decide⟩, by with_unfolding_all decide,
    by with_unfolding_all decide⟩

/-- Witness for C2: the last-top-level-occurrence characterization applied
to the `+` pass over `"2+3+4"`, whose scan returns index 3. -/
theorem c2_antiprecedence_last_split_witness :
    ('+' : Char) ≠ '(' ∧ ('+' : Char) ≠ ')' ∧
    opScan "a" '+' ("2+3+4".data) = .ok (some 3) ∧
    (IsTopLevelOcc '+' ("2+3+4".data) 3 ∧
      ∀ j, IsTopLevelOcc '+' ("2+3+4".data) j → j ≤ 3) :=
  ⟨by decide, by decide, by decide,
    c2_antiprecedence_last_split.2.1 "a" '+' ("2+3+4".data) 3 (by decide) (by decide) (by decide)⟩

/-- C4: every failure of the numeric evaluator is the in-band sentinel
(the `Except.error` message channel — the evaluator is a total function,
it never throws) carrying a message that references the owning argument's
name via the uniform `At property "<name>": …` shape; concretely
`parseNumber("1/0")` fails with the division-by-zero error and
`parseNumber("sqrt(-1)")` fails with the `sqrt` domain error. -/
theorem c4_number_errors_sentinel :
    (∀ (ops : MathOps) (argName : String) (s : String) (msg : String),
      parseNumberStr ops argName s = .error msg →
      ∃ body, msg = numErrMsg argName body) ∧
    parseNumberStr mathOps0 "a" "1/0" = .error (numErrMsg "a" "Can't divide by zero") ∧
    parseNumberStr mathOps0 "a" "sqrt(-1)" =
      .error (numErrMsg "a" "sqrt is only defined on [0, inf)") := by
  refine ⟨?_, by decide, by decide⟩
  intro ops argName s msg h
  exact parseNumberAux_error_shape ops argName s.data msg h

/-- Witness for C4: the sentinel-shape property applied to the concrete
division-by-zero failure. -/
theorem c4_number_errors_sentinel_witness :
    parseNumberStr mathOps0 "a" "1/0" = .error (numErrMsg "a" "Can't divide by zero") ∧
    (∃ body, numErrMsg "a" "Can't divide by zero" = numErrMsg "a" body) :=
  ⟨by decide, c4_number_errors_sentinel.1 mathOps0 "a" "1/0" _ (by decide)⟩


/-- C6 (counterexample): with schema `["?n:n", "a:s"]` the token list
`["-nx", "--a"]` contains the direct flag `--a` matching the non-optional
option `a`, yet the named pass produces **no** parse error: the earlier
clustered token `-nx` reaches the number-typed option `n`, whose branch
calls `.startsWith` on the planted boolean `true` and throws `TypeError`
before `--a` is ever handled.  The claim's "always produces a parse error
for every schema and token list" is therefore refuted. -/
theorem c6_required_flag_error_counterexample :
    parseArguments mathOps0 ext0 ["-nx", "--a"] cmdOptNumReqStr = .error .typeError ∧
    parseArgOptions "?n:n" = .ok nOptRec ∧
    parseArgOptions "a:s" = .ok aStrRec ∧
    directFlagName "--a".data = some "a" ∧
    findArgOptionPair [nOptRec, aStrRec] "a" = some (1, aStrRec) ∧
    aStrRec.optional = false := by
  refine ⟨by decide, by decide, by decide, by decide, by decide, by decide⟩

/-- C6 (amended): at the resolution point the guarantee does hold —
`handleArg` on a flag name matching a non-optional option always writes
the "is not optional, must be passed directly" parse error at the current
token (first conjunct) — and globally in contrapositive form: whenever the
named pass completes without a thrown exception and without erroring out,
every direct flag token (`--name` or two-character `-x`) in the token list
resolved to an optional option (second conjunct). -/
theorem c6_required_flag_error_amended :
    (∀ (ops : MathOps) (ext : TerminalEnv) (argOptions : List ArgOption) (pe : ParsingError)
       (i : Nat) (nt : Option String) (name : String) (idx : Nat) (opt : ArgOption),
       findArgOptionPair argOptions name = some (idx, opt) → opt.optional = false →
       handleArg ops ext argOptions pe i nt name =
         .ok (argOptions.set idx { opt with tokenIndex := some i },
           { pe with
             message := some ("Property \"" ++ opt.name ++ "\" is not optional, must be passed directly")
             tokenIndex := some i
             tokenSpan := 1 }, true)) ∧
    (∀ (ops : MathOps) (ext : TerminalEnv) (tokens : List String) (argOptions : List ArgOption)
       (pe : ParsingError) (del' : List Nat) (argOptions' : List ArgOption) (pe' : ParsingError)
       (i : Nat) (t : String) (name : String),
       parseNamedArgs ops ext tokens argOptions pe = .ok (some del', argOptions', pe') →
       tokens[i]? = some t → directFlagName t.data = some name →
       ResolvesOptional argOptions name) :=
  ⟨fun _ _ _ _ _ _ _ _ _ hfind hopt => handleArg_not_optional hfind hopt,
   fun _ _ _ _ _ _ _ _ _ _ _ h hget hname => parseNamedArgs_success_direct h hget hname⟩

/-- Witness for C6: the `handleArg` error on the required option `a` of
`[bOptRec, aReqRec]`, and optional resolution of `b` extracted from the
successful pass over `["-b"]`. -/
theorem c6_required_flag_error_amended_witness :
    handleArg mathOps0 ext0 [bOptRec, aReqRec] ParsingError.init 0 (some "x") "a" =
      .ok ([bOptRec, aReqRec].set 1 { aReqRec with tokenIndex := some 0 },
        { ParsingError.init with
          message := some ("Property \"" ++ aReqRec.name ++ "\" is not optional, must be passed directly")
          tokenIndex := some 0
          tokenSpan := 1 }, true) ∧
    ResolvesOptional [bOptRec] "b" :=
  ⟨c6_required_flag_error_amended.1 mathOps0 ext0 [bOptRec, aReqRec] ParsingError.init 0
      (some "x") "a" 1 aReqRec (by decide) (by decide),
   c6_required_flag_error_amended.2 mathOps0 ext0 ["-b"] [bOptRec] ParsingError.init [0]
      [{ bOptRec with tokenIndex := some 0, value := some (JSVal.bool true), isManuallySetValue := true }]
      ParsingError.init 0 "-b" "b" (by decide) (by decide) (by decide)⟩

/-- C7 (counterexample): with schema `["?n:n", "?b:b"]` the clustered
token `-nb` has the non-terminal character `n` resolving to a
**number**-typed (non-boolean) option, and the claimed parse error never
materialises: the cluster loop first plants the boolean `true` into the
resolved option via `_parseArgumentValue`, whose number branch calls
`.startsWith` on it and throws `TypeError` — an exception, not a parse
error.  (The boolean-or-error reading of the claim is also inaccurate for
`-` characters, which are skipped by `continue` without resolving to any
option.) -/
theorem c7_cluster_nonterminal_counterexample :
    parseArguments mathOps0 ext0 ["-nb"] cmdOptNumOptBool = .error .typeError ∧
    isClusterFlag "-nb".data = true ∧
    "-nb".data[1]? = some 'n' ∧ (1 : Nat) ≠ "-nb".data.length - 1 ∧
    parseArgOptions "?n:n" = .ok nOptRec ∧
    findArgOptionPair [nOptRec, bOptRec] "n" = some (0, nOptRec) ∧
    nOptRec.type = "number" := by
  refine ⟨by decide, by decide, by decide, by decide, by decide, by decide, by decide⟩

/-- C7 (amended): whenever the named pass completes without a thrown
exception and without erroring out, every non-dash character in
non-terminal position of a clustered single-dash token resolved to a
boolean-typed option (first conjunct: value consumption is indeed
impossible there, but a non-boolean resolution surfaces as a thrown
`TypeError` for number-typed options rather than the claimed parse error,
and `-` characters are exempt); a non-terminal character that resolves to
**no** option does produce the claimed parse error and aborts the pass
(second conjunct). -/
theorem c7_cluster_nonterminal_amended :
    (∀ (ops : MathOps) (ext : TerminalEnv) (tokens : List String) (argOptions : List ArgOption)
       (pe : ParsingError) (del' : List Nat) (argOptions' : List ArgOption) (pe' : ParsingError)
       (i : Nat) (t : String) (j : Nat) (c : Char),
       parseNamedArgs ops ext tokens argOptions pe = .ok (some del', argOptions', pe') →
       tokens[i]? = some t → isClusterFlag t.data = true →
       t.data[j]? = some c → j ≠ t.data.length - 1 → c ≠ '-' →
       ResolvesBoolean argOptions c) ∧
    (∀ (ops : MathOps) (ext : TerminalEnv) (lastIdx i : Nat) (nt : Option String)
       (j : Nat) (c : Char) (rest : List (Nat × Char)) (argOptions : List ArgOption)
       (pe : ParsingError) (dn : Bool),
       c ≠ '-' → j ≠ lastIdx →
       findArgOptionPair argOptions (String.mk [c]) = none →
       clusterGo ops ext lastIdx i nt ((j, c) :: rest) argOptions pe dn =
         .ok (argOptions,
           { pe with
             message := some ("Unexpected property \"" ++ String.mk [c] ++ "\"")
             tokenIndex := some i }, dn, true)) :=
  ⟨fun _ _ _ _ _ _ _ _ _ _ _ _ h hget hcluster hjc hjlast hdash =>
     parseNamedArgs_success_cluster h hget hcluster hjc hjlast hdash,
   fun _ _ _ _ _ _ _ _ _ _ _ hdash hjlast hfind => clusterGo_unexpected hdash hjlast hfind⟩

/-- Witness for C7: boolean resolution of the non-terminal `b` extracted
from the successful pass over the cluster `["-bb"]`, and the concrete
`Unexpected property` abort of the cluster loop on the unknown character
`z` in non-terminal position. -/
theorem c7_cluster_nonterminal_amended_witness :
    ResolvesBoolean [bOptRec] 'b' ∧
    clusterGo mathOps0 ext0 2 0 none [(1, 'z')] [bOptRec] ParsingError.init true =
      .ok ([bOptRec],
        { ParsingError.init with
          message := some ("Unexpected property \"" ++ String.mk ['z'] ++ "\"")
          tokenIndex := some 0 }, true, true) :=
  ⟨c7_cluster_nonterminal_amended.1 mathOps0 ext0 ["-bb"] [bOptRec] ParsingError.init [0]
      [{ bOptRec with tokenIndex := some 0, value := some (JSVal.bool true), isManuallySetValue := true }]
      ParsingError.init 0 "-bb" 1 'b' (by decide) (by decide) (by decide) (by decide)
      (by decide) (by decide),
   c7_cluster_nonterminal_amended.2 mathOps0 ext0 2 0 none 1 'z' [] [bOptRec] ParsingError.init
      true (by decide) (by decide) (by decide)⟩

/-- C8: compiling a schema spec string that declares a type code outside
the known set (`n`, `i`, `bn`, `b`, `s`, `f`, `c`, `sm`, `m`, `e`, `t`)
throws the `DeveloperError` exception `Invalid argument type: <code>`
immediately (an `Except.error`, not a user-facing `parsingError` record),
for every such spec string. -/
theorem c8_unknown_type_code_throws (argString : String) (t : String)
    (hcode : schemaTypeCode argString = some t)
    (hunknown : knownTypeCodes.contains t = false) :
    parseArgOptions argString = .error (.developerError ("Invalid argument type: " ++ t)) := by
  simp only [knownTypeCodes, List.contains_cons, List.contains_nil, Bool.or_eq_false_iff,
    beq_eq_false_iff_ne, ne_eq] at hunknown
  obtain ⟨h1, h2, h3, h4, h5, h6, h7, h8, h9, h10, h11, -⟩ := hunknown
  unfold schemaTypeCode at hcode
  unfold parseArgOptions
  obtain ⟨⟨optional, expanding, name2⟩, hsp⟩ : ∃ p, stripSchemaPrefixes argString.data = p :=
    ⟨_, rfl⟩
  rw [hsp] at hcode ⊢
  dsimp only at hcode ⊢
  by_cases hcolon : name2.contains ':' = true
  · rw [if_pos hcolon] at hcode
    rw [if_pos hcolon]
    cases hsplit : splitOnChar ':' name2 with
    | nil => rw [hsplit] at hcode; simp at hcode
    | cons p0 ps =>
      cases ps with
      | nil => rw [hsplit] at hcode; simp at hcode
      | cons p1 rest =>
        rw [hsplit] at hcode
        dsimp only at hcode ⊢
        have ht := Option.some.inj hcode
        subst ht
        rw [if_neg h1, if_neg h2, if_neg h3, if_neg h4, if_neg h5, if_neg h6, if_neg h7,
          if_neg h8, if_neg h9, if_neg h10, if_neg h11]
        rfl
  · rw [if_neg hcolon] at hcode
    simp at hcode

/-- Witness for C8: the spec strings `"a:z"` and `"?*x:zz:5"` declare the
unknown type codes `z` and `zz` and are rejected with the thrown
`DeveloperError`. -/
theorem c8_unknown_type_code_throws_witness :
    (schemaTypeCode "a:z" = some "z" ∧ knownTypeCodes.contains "z" = false ∧
      parseArgOptions "a:z" = .error (.developerError ("Invalid argument type: " ++ "z"))) ∧
    (schemaTypeCode "?*x:zz:5" = some "zz" ∧ knownTypeCodes.contains "zz" = false ∧
      parseArgOptions "?*x:zz:5" = .error (.developerError ("Invalid argument type: " ++ "zz"))) :=
  ⟨⟨by decide, by decide, c8_unknown_type_code_throws "a:z" "z" (by decide) (by decide)⟩,
   ⟨by decide, by decide, c8_unknown_type_code_throws "?*x:zz:5" "zz" (by decide) (by decide)⟩⟩

/-- C9: for every invocation of `Command.run` with the completion callback
requested (`callFinishFunc = true`), `terminal.finishCommand` is called
exactly once — whether the body returns normally, throws a genuine defect,
or aborts early via the `IntendedError` control-flow signal — and the
defect log is empty exactly when the body succeeded or aborted via
`IntendedError` (intended errors are never logged as defects). -/
theorem c9_finish_called_exactly_once :
    ∀ (ops : MathOps) (ext : TerminalEnv) (command : CommandSpec) (tokens : List String)
      (rawArgs : String) (cb : Except RunErr Unit) (paFlag activityFlag : Bool),
      (commandRun ops ext command tokens rawArgs cb true paFlag activityFlag).2.finishCalls = 1 ∧
      ((commandRun ops ext command tokens rawArgs cb true paFlag activityFlag).2.defectLogs = []
        ↔ (runBody ops ext command tokens rawArgs cb paFlag).1 = .ok ()
          ∨ (runBody ops ext command tokens rawArgs cb paFlag).1 = .error .intended) := by
  intro ops ext command tokens rawArgs cb paFlag activityFlag
  unfold commandRun
  rcases hbody : runBody ops ext command tokens rawArgs cb paFlag with ⟨r, printed⟩
  cases r with
  | ok u => cases u; simp
  | error e => cases e <;> simp
